import Mathlib

/-!
Verification development for the airtable-local repository: a shallow
embedding of its backend-abstraction core (the CSV/file table adapter in
src/adapters/csv-adapter.ts, the in-memory mock classes in
test/mocks/airtable-mocks.ts, the remote base adapter in
src/adapters/airtable-adapter.ts, and the validation helpers in
src/utils/validation.ts), together with proofs about the behavioural
contracts stated in the repository's specification.

Modelling conventions.  JavaScript runtime values that can appear in a
record's field set are modelled by the inductive type JVal; JavaScript
numbers (IEEE doubles in the source) are modelled as integers, so all
numeric parsing and printing below is exact on that subdomain and
fractional/exponent/hexadecimal literals are out of scope.  JavaScript
objects are modelled as association lists in insertion order; a JS object
cannot carry duplicate keys, and lookups take the first match.  Maps keyed
by record id are modelled as lists in insertion order, which is the
iteration order of a JS Map.  Async methods have no concurrency in this
code base (every call is awaited), so they are modelled as pure state
transformers; a thrown exception is modelled as an Option error component
alongside the resulting state, because in the source the mutations
performed before a throw survive the throw.
-/

/-- A JavaScript runtime value as stored in a field set: null, undefined,
boolean, number (modelled as an integer), string, array, or plain object
(association list of key/value pairs in insertion order). -/
inductive JVal where
  | jnull : JVal
  | undef : JVal
  | jbool : Bool → JVal
  | jnum : Int → JVal
  | jstr : String → JVal
  | jarr : List JVal → JVal
  | jobj : List (String × JVal) → JVal

open JVal

/-- Truthiness of a JVal, modelling the JavaScript ToBoolean conversion
(null, undefined, false, 0 and the empty string are falsy). -/
def jvTruthy : JVal → Bool
  | jnull => false
  | undef => false
  | jbool b => b
  | jnum n => n != 0
  | jstr s => s ≠ ""
  | jarr _ => true
  | jobj _ => true

/-- Characters treated as whitespace by the model of String.prototype.trim
(space, tab, newline, carriage return). -/
def isWsChar (c : Char) : Bool :=
  c = ' ' || c = '\t' || c = '\n' || c = '\r'

/-- Model of JavaScript String.prototype.trim restricted to the ASCII
whitespace characters above. -/
def jsTrim (s : String) : String :=
  ⟨((s.data.dropWhile isWsChar).reverse.dropWhile isWsChar).reverse⟩

/-- ASCII lower-casing of one character, modelling the effect of
String.prototype.toLowerCase on ASCII input. -/
def lowerChar (c : Char) : Char :=
  if 'A' ≤ c ∧ c ≤ 'Z' then Char.ofNat (c.toNat + 32) else c

/-- ASCII lower-casing of a string (model of String.prototype.toLowerCase
on the ASCII subdomain). -/
def asciiLower (s : String) : String :=
  ⟨s.data.map lowerChar⟩

/-- Decimal digit characters of a natural number, most significant first. -/
def natChars (n : Nat) : List Char :=
  if h : n < 10 then [Char.ofNat (48 + n)]
  else natChars (n / 10) ++ [Char.ofNat (48 + n % 10)]
decreasing_by exact Nat.div_lt_self (by omega) (by omega)

/-- Decimal rendering of an integer, modelling the JavaScript String()
conversion of an (integral) number. -/
def intToString (n : Int) : String :=
  if n < 0 then ⟨'-' :: natChars n.natAbs⟩ else ⟨natChars n.natAbs⟩

/-- Numeric value of a list of decimal digit characters. -/
def digitsVal (cs : List Char) : Nat :=
  cs.foldl (fun acc c => acc * 10 + (c.toNat - 48)) 0

/-- Model of the JavaScript Number() conversion applied to a string,
restricted to optionally signed decimal integer literals surrounded by
optional whitespace: none stands for NaN.  A whitespace-only or empty
string converts to 0, as in JavaScript. -/
def jsNumberOpt (s : String) : Option Int :=
  match (jsTrim s).data with
  | [] => some 0
  | '-' :: ds => if ds ≠ [] ∧ ds.all (·.isDigit) then some (-(digitsVal ds : Int)) else none
  | '+' :: ds => if ds ≠ [] ∧ ds.all (·.isDigit) then some (digitsVal ds : Int) else none
  | ds => if ds.all (·.isDigit) then some (digitsVal ds : Int) else none

/-- First-match lookup in an association list, modelling property access
obj[key] on a JS object: an absent key reads as undefined. -/
def jsGet (fields : List (String × JVal)) (key : String) : JVal :=
  match fields.find? (fun kv => kv.1 = key) with
  | some kv => kv.2
  | none => undef

/-- Property assignment obj[key] = v on a JS object modelled as an
association list: an existing key keeps its position, a new key is
appended. -/
def jsSet (fields : List (String × JVal)) (key : String) (v : JVal) :
    List (String × JVal) :=
  if fields.any (fun kv => kv.1 = key) then
    fields.map (fun kv => if kv.1 = key then (kv.1, v) else kv)
  else
    fields ++ [(key, v)]

/-- Model of Object.assign(target, src): assign every entry of src onto
target in order. -/
def jsAssign (target src : List (String × JVal)) : List (String × JVal) :=
  src.foldl (fun acc kv => jsSet acc kv.1 kv.2) target

/-- Escape sequence (if any) emitted for one character inside a JSON string
literal, modelling JSON.stringify's string quoting for the characters it
can actually produce from this code base (quote, backslash, newline, tab,
carriage return; other characters are emitted verbatim). -/
def escChar (c : Char) : List Char :=
  if c = '"' then ['\\', '"']
  else if c = '\\' then ['\\', '\\']
  else if c = '\n' then ['\\', 'n']
  else if c = '\t' then ['\\', 't']
  else if c = '\r' then ['\\', 'r']
  else [c]

/-- Escaped body of a JSON string literal. -/
def escBody : List Char → List Char
  | [] => []
  | c :: cs => escChar c ++ escBody cs

/-- A JSON string literal: opening quote, escaped body, closing quote. -/
def quoteString (s : String) : List Char :=
  '"' :: escBody s.data ++ ['"']

mutual

/-- Model of JSON.stringify (default options: no indentation, elements
joined with commas).  An undefined value is serialized like null; this
matches JSON.stringify inside arrays, and the few results below that
involve object entries are stated for values without undefined inside,
where the model agrees with JSON.stringify everywhere. -/
def jsonStringify : JVal → List Char
  | jnull => ['n', 'u', 'l', 'l']
  | undef => ['n', 'u', 'l', 'l']
  | jbool true => ['t', 'r', 'u', 'e']
  | jbool false => ['f', 'a', 'l', 's', 'e']
  | jnum n => (intToString n).data
  | jstr s => quoteString s
  | jarr [] => ['[', ']']
  | jarr (v :: vs) => '[' :: (jsonStringify v ++ emitArrTail vs)
  | jobj [] => ['{', '}']
  | jobj (kv :: kvs) => '{' :: (emitMember kv ++ emitObjTail kvs)

/-- Serialized tail of a JSON array: either the closing bracket or a comma
followed by the next element and the remaining tail. -/
def emitArrTail : List JVal → List Char
  | [] => [']']
  | v :: vs => ',' :: (jsonStringify v ++ emitArrTail vs)

/-- One serialized object member: quoted key, colon, value. -/
def emitMember : String × JVal → List Char
  | (k, v) => quoteString k ++ ':' :: jsonStringify v

/-- Serialized tail of a JSON object. -/
def emitObjTail : List (String × JVal) → List Char
  | [] => ['}']
  | kv :: kvs => ',' :: (emitMember kv ++ emitObjTail kvs)

end

/-- Whitespace characters skipped between JSON tokens. -/
def skipWs (cs : List Char) : List Char :=
  cs.dropWhile isWsChar

/-- Unescaping of one JSON string escape code. -/
def unescChar (c : Char) : Option Char :=
  if c = '"' then some '"'
  else if c = '\\' then some '\\'
  else if c = '/' then some '/'
  else if c = 'n' then some '\n'
  else if c = 't' then some '\t'
  else if c = 'r' then some '\r'
  else none

/-- Body of a JSON string literal after the opening quote: returns the
unescaped characters and the input remaining after the closing quote. -/
def parseStrBody : List Char → Option (List Char × List Char)
  | [] => none
  | c :: cs =>
    if c = '"' then some ([], cs)
    else if c = '\\' then
      match cs with
      | [] => none
      | e :: cs2 =>
        match unescChar e with
        | some u =>
          match parseStrBody cs2 with
          | some (content, rest) => some (u :: content, rest)
          | none => none
        | none => none
    else
      match parseStrBody cs with
      | some (content, rest) => some (c :: content, rest)
      | none => none

/-- A JSON number token (optionally signed decimal integer; fractional and
exponent forms are outside the modelled subdomain). -/
def parseNum (cs : List Char) : Option (Int × List Char) :=
  match cs with
  | '-' :: rest =>
    let ds := rest.takeWhile (·.isDigit)
    if ds = [] then none
    else some (-(digitsVal ds : Int), rest.dropWhile (·.isDigit))
  | _ =>
    let ds := cs.takeWhile (·.isDigit)
    if ds = [] then none
    else some ((digitsVal ds : Int), cs.dropWhile (·.isDigit))

/-- Literal keyword match: consumes lit from the front of the input. -/
def expectLit (lit cs : List Char) : Option (List Char) :=
  if lit.isPrefixOf cs then some (cs.drop lit.length) else none

mutual

/-- Fuel-indexed recursive-descent JSON value reader, together with
parseArrTail / parseMember / parseObjTail below modelling JSON.parse on
the sublanguage produced by jsonStringify (plus interstitial whitespace).
Returns the parsed value and the remaining input. -/
def parseV : Nat → List Char → Option (JVal × List Char)
  | 0, _ => none
  | fuel + 1, cs0 =>
    match skipWs cs0 with
    | [] => none
    | c :: cs =>
      if c = 'n' then (expectLit ['u', 'l', 'l'] cs).map (fun r => (jnull, r))
      else if c = 't' then (expectLit ['r', 'u', 'e'] cs).map (fun r => (jbool true, r))
      else if c = 'f' then (expectLit ['a', 'l', 's', 'e'] cs).map (fun r => (jbool false, r))
      else if c = '"' then (parseStrBody cs).map (fun p => (jstr ⟨p.1⟩, p.2))
      else if c = '[' then
        match skipWs cs with
        | ']' :: rest => some (jarr [], rest)
        | _ =>
          match parseV fuel cs with
          | some (v, r1) => (parseArrTail fuel r1).map (fun p => (jarr (v :: p.1), p.2))
          | none => none
      else if c = '{' then
        match skipWs cs with
        | '}' :: rest => some (jobj [], rest)
        | _ =>
          match parseMember fuel cs with
          | some (kv, r1) => (parseObjTail fuel r1).map (fun p => (jobj (kv :: p.1), p.2))
          | none => none
      else if c = '-' ∨ c.isDigit then (parseNum (c :: cs)).map (fun p => (jnum p.1, p.2))
      else none

/-- Tail of a JSON array: a closing bracket, or a comma, an element and a
further tail. -/
def parseArrTail : Nat → List Char → Option (List JVal × List Char)
  | 0, _ => none
  | fuel + 1, cs0 =>
    match skipWs cs0 with
    | ']' :: rest => some ([], rest)
    | ',' :: rest =>
      match parseV fuel rest with
      | some (v, r1) => (parseArrTail fuel r1).map (fun p => (v :: p.1, p.2))
      | none => none
    | _ => none

/-- One JSON object member: quoted key, colon, value. -/
def parseMember : Nat → List Char → Option ((String × JVal) × List Char)
  | 0, _ => none
  | fuel + 1, cs0 =>
    match skipWs cs0 with
    | '"' :: cs =>
      match parseStrBody cs with
      | some (key, r1) =>
        match skipWs r1 with
        | ':' :: r2 => (parseV fuel r2).map (fun p => ((⟨key⟩, p.1), p.2))
        | _ => none
      | none => none
    | _ => none

/-- Tail of a JSON object: a closing brace, or a comma, a member and a
further tail. -/
def parseObjTail : Nat → List Char → Option (List (String × JVal) × List Char)
  | 0, _ => none
  | fuel + 1, cs0 =>
    match skipWs cs0 with
    | '}' :: rest => some ([], rest)
    | ',' :: rest =>
      match parseMember fuel rest with
      | some (kv, r1) => (parseObjTail fuel r1).map (fun p => (kv :: p.1, p.2))
      | none => none
    | _ => none

end

/-- Model of JSON.parse: parse one value and require that only whitespace
remains.  none models a thrown SyntaxError. -/
def jsonParseOpt (s : String) : Option JVal :=
  match parseV (s.length + 1) s.data with
  | some (v, rest) => if skipWs rest = [] then some v else none
  | none => none

mutual

/-- Model of the JavaScript String() conversion of a value: strings pass
through, numbers print in decimal, booleans and null and undefined print
their keyword, arrays join their elements with commas (Array.prototype
.toString), plain objects print as the literal text in brackets naming
the Object type. -/
def jsToString : JVal → String
  | jnull => "null"
  | undef => "undefined"
  | jbool true => "true"
  | jbool false => "false"
  | jnum n => intToString n
  | jstr s => s
  | jarr xs => ⟨joinChars xs⟩
  | jobj _ => "[object Object]"
termination_by v => (sizeOf v, 0)

/-- Comma-joined rendering of array elements (Array.prototype.join with
the default separator). -/
def joinChars : List JVal → List Char
  | [] => []
  | [v] => elemChars v
  | v :: vs => elemChars v ++ ',' :: joinChars vs
termination_by vs => (sizeOf vs, 2)

/-- Rendering of one array element inside a join: null and undefined
render as nothing, every other value renders via String(). -/
def elemChars : JVal → List Char
  | jnull => []
  | undef => []
  | v => (jsToString v).data
termination_by v => (sizeOf v, 1)

end

/-- Errors thrown by the adapters, by kind, carrying the data interpolated
into the thrown message (see the message functions below). -/
inductive AErr where
  | recordNotFound : String → String → AErr
  | tableNotFoundCsv : String → List String → AErr
  | tableNotFoundMock : String → AErr
  | validation : String → AErr

/-- The message string carried by a modelled error, mirroring the template
literals at the throw sites in csv-adapter.ts, the mock classes, and
validation.ts. -/
def errMessage : AErr → String
  | .recordNotFound id tableName =>
      "Record with ID \"" ++ id ++ "\" not found in table \"" ++ tableName ++ "\""
  | .tableNotFoundCsv name available =>
      "Table \"" ++ name ++ "\" not found. Available tables: " ++ String.intercalate ", " available
  | .tableNotFoundMock name =>
      "Table \"" ++ name ++ "\" not found in base"
  | .validation msg => msg

/-- Decidable substring test on character lists (used to state what a
message does or does not mention). -/
def subSeqAt : List Char → List Char → Bool
  | pat, [] => pat = []
  | pat, c :: rest => pat.isPrefixOf (c :: rest) || subSeqAt pat rest

/-- Whether pat occurs as a contiguous substring of s. -/
def strContains (s pat : String) : Bool :=
  subSeqAt pat.data s.data

/-- A field set as supplied to a write operation: a JS object modelled as
an association list (type FieldSet = Record of string to unknown). -/
def FieldSet := List (String × JVal)

/-- Boolean test for the undefined value (the strict comparison with
undefined used at several places in the source). -/
def isUndef : JVal → Bool
  | undef => true
  | _ => false

/-- A record of the file-backed or the in-memory backend.  The classes
CsvRecordAdapter (csv-adapter.ts) and MockRecord (airtable-mocks.ts) have
character-identical constructor, getCellValue, getCellValueAsString,
_updateFields and _getAllFields bodies, so one model covers both.  The
name property is declared as a string in the source but can hold any
value at runtime, hence JVal. -/
structure RecordA where
  id : String
  name : JVal
  fields : List (String × JVal)

/-- The constructor new CsvRecordAdapter(id, fields) / new MockRecord(id,
fields): copies the field set and derives name as the truthy value of the
"Name" field with the id as fallback. -/
def mkRecord (id : String) (fields : FieldSet) : RecordA :=
  { id := id
    name := if jvTruthy (jsGet fields "Name") then jsGet fields "Name" else jstr id
    fields := fields }

/-- CsvRecordAdapter.getCellValue / MockRecord.getCellValue: field lookup
with the nullish-coalescing fallback to null. -/
def getCellValue (r : RecordA) (fieldNameOrId : String) : JVal :=
  match jsGet r.fields fieldNameOrId with
  | undef => jnull
  | jnull => jnull
  | v => v

/-- CsvRecordAdapter._updateFields / MockRecord._updateFields:
Object.assign the new fields over the old ones and re-derive name
unconditionally whenever the "Name" key is present (not undefined). -/
def recUpdateFields (r : RecordA) (fields : FieldSet) : RecordA :=
  { id := r.id
    fields := jsAssign r.fields fields
    name := if isUndef (jsGet fields "Name") then r.name else jsGet fields "Name" }

/-- A sort key {field, direction} from RecordSelectOptions.sorts; the
direction is optional in the source interface. -/
structure SortKey where
  field : String
  direction : Option Bool

/-- The "desc" direction literal: direction is modelled as Option Bool
with some true standing for "desc" and some false for "asc". -/
def descDir : Option Bool := some true

/-- RecordSelectOptions (the fields member only affects the remote
backend and is not modelled). -/
structure RecordSelectOptions where
  sorts : Option (List SortKey) := none
  recordIds : Option (List String) := none

/-- The string sort key of a record under a field, from the comparator in
selectRecordsAsync: String(record.getCellValue(field) ?? ""). -/
def sortKeyStr (r : RecordA) (field : String) : String :=
  match getCellValue r field with
  | jnull => ""
  | v => jsToString v

/-- Ordering of two strings by code point, modelling the localeCompare
call in the sort comparator (default-locale collation is modelled as
ordinal comparison): lexicographic comparison of the code-point lists. -/
def cmpCharList : List Char → List Char → Ordering
  | [], [] => Ordering.eq
  | [], _ :: _ => Ordering.lt
  | _ :: _, [] => Ordering.gt
  | a :: as, b :: bs =>
    match compare a.toNat b.toNat with
    | Ordering.eq => cmpCharList as bs
    | o => o

/-- Ordering of two strings by code point. -/
def compareStrings (a b : String) : Ordering :=
  cmpCharList a.data b.data

/-- The comparator passed to records.sort for one sort key: compare the
string-coerced cell values and flip the result when the direction is
"desc". -/
def cmpRecords (k : SortKey) (a b : RecordA) : Ordering :=
  let comparison := compareStrings (sortKeyStr a k.field) (sortKeyStr b k.field)
  if k.direction = descDir then comparison.swap else comparison

/-- One records.sort(comparator) call.  Array.prototype.sort is required
to be stable (ES2019), so it is modelled as a stable merge sort with the
comparator's non-positive outcomes as the le test. -/
def sortPass (k : SortKey) (records : List RecordA) : List RecordA :=
  records.mergeSort (fun a b => cmpRecords k a b ≠ Ordering.gt)

/-- The recordIds restriction of selectRecordsAsync: keep the records
whose id is among the requested ids, preserving prior order. -/
def filterSelected (records : List RecordA) (options : RecordSelectOptions) :
    List RecordA :=
  match options.recordIds with
  | some ids => records.filter (fun r => r.id ∈ ids)
  | none => records

/-- The sort loop: one stable pass per sort key, applied over the
reversed declared key list. -/
def applySorts (sorts : List SortKey) (records : List RecordA) : List RecordA :=
  (sorts.reverse).foldl (fun recs k => sortPass k recs) records

/-- The body shared verbatim by CsvTableAdapter.selectRecordsAsync and
MockTable.selectRecordsAsync: filter by recordIds when given, then apply
each sort of the reversed sorts list as one stable sort pass. -/
def selectRecords (records : List RecordA) (options : RecordSelectOptions) :
    List RecordA :=
  match options.sorts with
  | some sorts => applySorts sorts (filterSelected records options)
  | none => filterSelected records options

/-- Decimal rendering of a natural number (String() of a nonnegative
integral JS number, also the template interpolation of a counter). -/
def natToString (n : Nat) : String :=
  ⟨natChars n⟩

/-- The bracket test of parseValue: the text both starts and ends with
square brackets, or both starts and ends with braces. -/
def jsonDelimitedB (value : String) : Bool :=
  match value.data.head?, value.data.getLast? with
  | some '[', some ']' => true
  | some '{', some '}' => true
  | _, _ => false

/-- CsvTableAdapter.parseValue, the JSON branch and the fallthrough: when
the text is bracket- or brace-delimited try JSON.parse, keeping the raw
string on a parse failure; otherwise keep the raw string. -/
def parseValueJson (value : String) : JVal :=
  if jsonDelimitedB value then
    match jsonParseOpt value with
    | some j => j
    | none => jstr value
  else jstr value

/-- CsvTableAdapter.parseValue: load-time type inference for one textual
cell.  Empty text is null; case-insensitive true/false are booleans; text
that Number() accepts (and that is not whitespace-only) is a number;
bracket- or brace-delimited JSON is the parsed structure; anything else
stays a string.  The null/undefined input guards of the source cannot
fire on a parsed CSV cell, which is always a string. -/
def parseValue (value : String) : JVal :=
  if value = "" then jnull
  else if asciiLower value = "true" then jbool true
  else if asciiLower value = "false" then jbool false
  else
    match jsNumberOpt value with
    | some n => if jsTrim value ≠ "" then jnum n else parseValueJson value
    | none => parseValueJson value

/-- The text csv-stringify writes for one cell under its default casts:
strings pass through, numbers print in decimal, true prints as "1" and
false as the empty string, null and undefined print as the empty string,
and objects and arrays print as their JSON.stringify text. -/
def castCell : JVal → String
  | jstr s => s
  | jnum n => intToString n
  | jbool b => if b then "1" else ""
  | jnull => ""
  | undef => ""
  | jarr vs => ⟨jsonStringify (jarr vs)⟩
  | jobj kvs => ⟨jsonStringify (jobj kvs)⟩

/-- The backing CSV file, abstracted to its grid of text cells: the
header row and the data rows.  The byte-level encoding (delimiters,
quoting) performed by csv-stringify and undone by csv-parse is modelled
as the identity on this grid; csv-parse's trim option is applied
cell-wise on load. -/
structure CsvFile where
  header : List String
  rows : List (List String)

/-- First-match lookup of a cell in a parsed row object. -/
def cellGet (row : List (String × String)) (key : String) : Option String :=
  (row.find? (fun kv => kv.1 = key)).map (fun kv => kv.2)

/-- A lookup result as a JS truthiness test sees it: an absent key or an
empty string is falsy. -/
def truthyCell (o : Option String) : Option String :=
  match o with
  | some s => if s = "" then none else some s
  | none => none

/-- The record id chosen for one loaded row: row.id, row.Id or row.ID
(first truthy wins), or a fresh "rec" id from the running counter
(incrementing it). -/
def rowId (row : List (String × String)) (nextId : Nat) : String × Nat :=
  match truthyCell (cellGet row "id") with
  | some s => (s, nextId)
  | none =>
    match truthyCell (cellGet row "Id") with
    | some s => (s, nextId)
    | none =>
      match truthyCell (cellGet row "ID") with
      | some s => (s, nextId)
      | none => ("rec" ++ natToString nextId, nextId + 1)

/-- One row of the loadFromCsv loop: pick the id, then build the field
set from every non-id column with parseValue applied, then construct the
record. -/
def loadRow (header : List String) (cells : List String) (nextId : Nat) :
    RecordA × Nat :=
  let row := header.zip cells
  let (id, nextId1) := rowId row nextId
  let fields := (row.filter (fun kv => asciiLower kv.1 ≠ "id")).map
    (fun kv => (kv.1, parseValue kv.2))
  (mkRecord id fields, nextId1)

/-- The loadFromCsv row loop over all rows, threading the id counter. -/
def loadRows (header : List String) : List (List String) → Nat →
    List RecordA × Nat
  | [], nextId => ([], nextId)
  | cells :: rest, nextId =>
    let (r, nextId1) := loadRow header cells nextId
    let (rs, nextId2) := loadRows header rest nextId1
    (r :: rs, nextId2)

/-- The digits kept by id.replace of all non-digits with nothing, read by
parseInt with the NaN-to-0 fallback. -/
def idNumeric (id : String) : Nat :=
  let ds := id.data.filter (fun c => c.isDigit)
  if ds = [] then 0 else digitsVal ds

/-- A table of the file backend (CsvTableAdapter): name doubles as id,
the record map is kept in insertion order, fieldNames holds the header of
the loaded file, and file holds the current content of the backing file.
The fields metadata list (one generic descriptor per column) is derivable
from fieldNames and not separately modelled. -/
structure CsvTable where
  id : String
  name : String
  records : List RecordA
  fieldNames : List String
  nextRecordId : Nat
  autoSave : Bool
  file : CsvFile

/-- CsvTableAdapter.loadFromCsv on an existing file together with the
constructor: trim every header name and cell (csv-parse trim option),
return the empty table state on a file with no data rows, otherwise load
every row and set the id counter one past the largest numeric id part. -/
def loadCsvTable (name : String) (file : CsvFile) (autoSave : Bool) : CsvTable :=
  let header := file.header.map jsTrim
  let rows := file.rows.map (fun cells => cells.map jsTrim)
  if rows = [] then
    { id := name, name := name, records := [], fieldNames := [],
      nextRecordId := 1, autoSave := autoSave, file := file }
  else
    let (records, _) := loadRows header rows 1
    let maxId := records.foldl (fun m r => max m (idNumeric r.id)) 0
    { id := name, name := name, records := records, fieldNames := header,
      nextRecordId := maxId + 1, autoSave := autoSave, file := file }

/-- CsvTableAdapter.saveToCsv: a no-op unless auto-save is on; otherwise
rewrite the whole backing file with an id column followed by every non-id
declared column, one row per record, each row built from the object that
spreads the record's fields over its id. -/
def saveToCsv (t : CsvTable) : CsvTable :=
  if ¬t.autoSave then t
  else
    let columns := "id" :: t.fieldNames.filter (fun f => asciiLower f ≠ "id")
    let rows := t.records.map (fun r =>
      let rowObj := jsAssign [("id", jstr r.id)] r.fields
      columns.map (fun c => castCell (jsGet rowObj c)))
    { t with file := { header := columns, rows := rows } }

/-- CsvTableAdapter.selectRecordsAsync: the shared select body over the
current records. -/
def csvSelect (t : CsvTable) (options : RecordSelectOptions) : List RecordA :=
  selectRecords t.records options

/-- CsvTableAdapter.updateRecordAsync: look the id up, throw
record-not-found when absent, otherwise merge the fields into the record
in place and save.  The record-or-id union argument is modelled by the id
it resolves to. -/
def csvUpdateRecord (t : CsvTable) (id : String) (fields : FieldSet) :
    CsvTable × Option AErr :=
  match t.records.find? (fun r => r.id = id) with
  | none => (t, some (.recordNotFound id t.name))
  | some _ =>
    let t1 := { t with
      records := t.records.map (fun r =>
        if r.id = id then recUpdateFields r fields else r) }
    (saveToCsv t1, none)

/-- CsvTableAdapter.updateRecordsAsync: await updateRecordAsync for each
entry in order; the first throw aborts the remaining entries while the
states reached before it survive. -/
def csvUpdateRecords (t : CsvTable) :
    List (String × FieldSet) → CsvTable × Option AErr
  | [] => (t, none)
  | (id, fields) :: rest =>
    match csvUpdateRecord t id fields with
    | (t1, none) => csvUpdateRecords t1 rest
    | (t1, some e) => (t1, some e)

/-- String.prototype.padStart(10, "0") on the decimal text of the id
counter. -/
def padStart10 (s : String) : String :=
  ⟨List.replicate (10 - s.length) '0' ++ s.data⟩

/-- CsvTableAdapter.createRecordAsync: mint the next zero-padded "rec"
id, append the new record, save, and return the id. -/
def csvCreateRecord (t : CsvTable) (fields : FieldSet) : CsvTable × String :=
  let id := "rec" ++ padStart10 (natToString t.nextRecordId)
  let t1 := { t with
    records := t.records ++ [mkRecord id fields],
    nextRecordId := t.nextRecordId + 1 }
  (saveToCsv t1, id)

/-- CsvTableAdapter.createRecordsAsync: sequential composition of single
creates, returning the ids in input order. -/
def csvCreateRecords (t : CsvTable) : List FieldSet → CsvTable × List String
  | [] => (t, [])
  | fields :: rest =>
    let (t1, id) := csvCreateRecord t fields
    let (t2, ids) := csvCreateRecords t1 rest
    (t2, id :: ids)

/-- CsvTableAdapter.deleteRecordAsync: throw record-not-found when the id
is absent, otherwise remove the record and save. -/
def csvDeleteRecord (t : CsvTable) (id : String) : CsvTable × Option AErr :=
  if t.records.any (fun r => r.id = id) then
    (saveToCsv { t with records := t.records.filter (fun r => ¬r.id = id) }, none)
  else (t, some (.recordNotFound id t.name))

/-- CsvTableAdapter.deleteRecordsAsync: sequential composition of single
deletes with abort-on-first-throw. -/
def csvDeleteRecords (t : CsvTable) : List String → CsvTable × Option AErr
  | [] => (t, none)
  | id :: rest =>
    match csvDeleteRecord t id with
    | (t1, none) => csvDeleteRecords t1 rest
    | (t1, some e) => (t1, some e)

/-- A table of the in-memory backend (MockTable).  The call-tracking
arrays (_calls) record arguments for test assertions only and play no
part in the behaviour claimed here, so they are not modelled. -/
structure MockTable where
  id : String
  name : String
  records : List RecordA
  nextRecordId : Nat

/-- MockTable.selectRecordsAsync: the shared select body over the current
records. -/
def mockSelect (t : MockTable) (options : RecordSelectOptions) : List RecordA :=
  selectRecords t.records options

/-- MockTable.updateRecordAsync: like the file-backed update but with no
persistence step. -/
def mockUpdateRecord (t : MockTable) (id : String) (fields : FieldSet) :
    MockTable × Option AErr :=
  match t.records.find? (fun r => r.id = id) with
  | none => (t, some (.recordNotFound id t.name))
  | some _ =>
    ({ t with records := t.records.map (fun r =>
        if r.id = id then recUpdateFields r fields else r) }, none)

/-- MockTable.updateRecordsAsync: sequential single updates with
abort-on-first-throw. -/
def mockUpdateRecords (t : MockTable) :
    List (String × FieldSet) → MockTable × Option AErr
  | [] => (t, none)
  | (id, fields) :: rest =>
    match mockUpdateRecord t id fields with
    | (t1, none) => mockUpdateRecords t1 rest
    | (t1, some e) => (t1, some e)

/-- MockTable.createRecordAsync: mint the next zero-padded "rec" id and
append the record. -/
def mockCreateRecord (t : MockTable) (fields : FieldSet) : MockTable × String :=
  let id := "rec" ++ padStart10 (natToString t.nextRecordId)
  ({ t with
      records := t.records ++ [mkRecord id fields],
      nextRecordId := t.nextRecordId + 1 }, id)

/-- MockTable.deleteRecordAsync: throw record-not-found when the id is
absent, otherwise remove the record. -/
def mockDeleteRecord (t : MockTable) (id : String) : MockTable × Option AErr :=
  if t.records.any (fun r => r.id = id) then
    ({ t with records := t.records.filter (fun r => ¬r.id = id) }, none)
  else (t, some (.recordNotFound id t.name))

/-- The file backend base (CsvBaseAdapter): the loaded tables in
directory order; the name-keyed tableMap has exactly these tables under
their names. -/
structure CsvBase where
  tables : List CsvTable

/-- CsvBaseAdapter.getTable: name lookup that throws table-not-found
listing the available table names when absent. -/
def csvGetTable (b : CsvBase) (nameOrId : String) : Except AErr CsvTable :=
  match b.tables.find? (fun t => t.name = nameOrId) with
  | some t => .ok t
  | none => .error (.tableNotFoundCsv nameOrId (b.tables.map (fun t => t.name)))

/-- The in-memory base (MockBase): its tableMap holds every table under
both its id and its name. -/
structure MockBase where
  tables : List MockTable

/-- MockBase.getTable: id-or-name lookup that throws a bare
table-not-found (no list of alternatives) when absent. -/
def mockGetTable (b : MockBase) (nameOrId : String) : Except AErr MockTable :=
  match b.tables.find? (fun t => t.id = nameOrId || t.name = nameOrId) with
  | some t => .ok t
  | none => .error (.tableNotFoundMock nameOrId)

/-- A remote table binding (AirtableTableAdapter): a name bound to the
remote base; it holds no local record state. -/
structure RTable where
  name : String

/-- The remote base (AirtableBaseAdapter): the name-keyed cache of table
bindings, plus the tables array of pre-declared or discovered bindings
(getTable reads and writes only the cache). -/
structure RemoteBase where
  tables : List RTable
  tableMap : List (String × RTable)

/-- AirtableBaseAdapter.getTable: return the cached binding when present;
otherwise construct a fresh binding for the requested name, cache it, and
return it — no failure path and no upstream validation. -/
def remoteGetTable (b : RemoteBase) (nameOrId : String) : RTable × RemoteBase :=
  match b.tableMap.find? (fun kv => kv.1 = nameOrId) with
  | some kv => (kv.2, b)
  | none =>
    let t : RTable := { name := nameOrId }
    (t, { b with tableMap := b.tableMap ++ [(nameOrId, t)] })

/-- validation.ts isFieldSet: a non-null non-array object. -/
def isFieldSet : JVal → Bool
  | jobj _ => true
  | _ => false

/-- The entry loop of validateFieldSet: reject an invalid (empty after
trimming) field name or an explicitly undefined value, in entry order. -/
def validateEntries : List (String × JVal) → Option AErr
  | [] => none
  | (k, v) :: rest =>
    if jsTrim k = "" then
      some (.validation ("Invalid field name: \"" ++ k ++ "\""))
    else if isUndef v then
      some (.validation ("Field \"" ++ k ++ "\" has undefined value. Use null to clear a field."))
    else validateEntries rest

/-- validation.ts validateFieldSet: reject a field set that is not a
non-null object, then check every entry.  The returned error models the
thrown ValidationError; none means the call returns normally. -/
def validateFieldSet (fields : JVal) : Option AErr :=
  match fields with
  | jobj kvs => validateEntries kvs
  | _ => some (.validation "Fields must be a non-null object")

/-- One mutating operation against a table, for stating frame properties
over arbitrary operation sequences (the batch operations of the source
are sequential compositions of these). -/
inductive TableOp where
  | create : FieldSet → TableOp
  | update : String → FieldSet → TableOp
  | delete : String → TableOp

/-- Application of one operation to a file-backed table, keeping the
state a failed call leaves behind. -/
def applyOp (t : CsvTable) : TableOp → CsvTable
  | .create fields => (csvCreateRecord t fields).1
  | .update id fields => (csvUpdateRecord t id fields).1
  | .delete id => (csvDeleteRecord t id).1

/-- Application of a sequence of operations in order. -/
def applyOps (t : CsvTable) (ops : List TableOp) : CsvTable :=
  ops.foldl applyOp t

/-- Lexicographic combination of a declared sort-key list: the first key
that distinguishes two records decides. -/
def lexCmp : List SortKey → RecordA → RecordA → Ordering
  | [], _, _ => Ordering.eq
  | k :: ks, a, b =>
    match cmpRecords k a b with
    | Ordering.eq => lexCmp ks a b
    | o => o

mutual

/-- Whether a value contains no undefined anywhere (undefined inside a
structure is where this JSON model and JSON.stringify part ways). -/
def noUndef : JVal → Bool
  | undef => false
  | jarr vs => noUndefList vs
  | jobj kvs => noUndefEntries kvs
  | _ => true

/-- noUndef over the elements of an array. -/
def noUndefList : List JVal → Bool
  | [] => true
  | v :: vs => noUndef v && noUndefList vs

/-- noUndef over the values of an object. -/
def noUndefEntries : List (String × JVal) → Bool
  | [] => true
  | (_, v) :: kvs => noUndef v && noUndefEntries kvs

end

/-- A string the load-time type inference leaves unchanged: invariant
under trimming, not empty, not a boolean word, not numeric, and not
parseable bracket-delimited JSON. -/
def plainString (s : String) : Bool :=
  jsTrim s == s && s != "" &&
  asciiLower s != "true" && asciiLower s != "false" &&
  (jsNumberOpt s).isNone &&
  (!jsonDelimitedB s || (jsonParseOpt s).isNone)

/-- A cell value that survives a save-then-reload cycle of the file
backend: null, a number, an undefined-free array or object, or a plain
string.  Booleans are deliberately excluded: csv-stringify writes them as
"1" or "", which reload as the number 1 or null. -/
def goodCellVal : JVal → Bool
  | jnull => true
  | jnum _ => true
  | jstr s => plainString s
  | jarr vs => noUndefList vs
  | jobj kvs => noUndefEntries kvs
  | jbool _ => false
  | undef => false

/-- Continuations after a serialized JSON value inside a larger
serialized text: end of input or a closing/separating token (what keeps
the greedy number token reader from overrunning). -/
def restOk : List Char → Prop
  | [] => True
  | c :: _ => c = ',' ∨ c = ']' ∨ c = '}'

/-- Well-formedness of one record against the saved column list: a
nonempty trim-invariant id and exactly the non-id columns as field keys,
every value surviving a save-reload cycle. -/
def recordWF (cols : List String) (r : RecordA) : Bool :=
  r.id != "" && jsTrim r.id == r.id &&
  r.fields.map Prod.fst == cols &&
  r.fields.all (fun kv => goodCellVal kv.2)

/-- Well-formedness of a file-backed table for the round-trip statement:
trim-invariant, duplicate-free non-id columns and well-formed records. -/
def tableWF (t : CsvTable) : Bool :=
  t.fieldNames.all (fun f => jsTrim f == f) &&
  decide ((t.fieldNames.filter (fun f => asciiLower f ≠ "id")).Nodup) &&
  t.records.all (fun r => recordWF (t.fieldNames.filter (fun f => asciiLower f ≠ "id")) r)

/-- A five-row backing file used as concrete input below. -/
def sampleFile : CsvFile :=
  { header := ["id", "Name", "Status", "Count"]
    rows := [["rec1", "Task 1", "Pending", "10"],
             ["rec2", "Task 2", "Done", "20"],
             ["rec3", "Task 3", "Pending", "30"],
             ["rec4", "Task 4", "Done", "40"],
             ["rec5", "Task 5", "Pending", "50"]] }

/-- The sample file loaded without auto-save. -/
def sampleCsvTable : CsvTable :=
  loadCsvTable "Tasks" sampleFile false

/-- The sample file loaded with auto-save on. -/
def sampleCsvAuto : CsvTable :=
  loadCsvTable "Tasks" sampleFile true

/-- A small in-memory table used as concrete input below. -/
def sampleMockTable : MockTable :=
  { id := "tbl1"
    name := "Tasks"
    records := [mkRecord "rec1" [("Name", jstr "Task 1")],
                mkRecord "rec2" [("Name", jstr "Task 2")],
                mkRecord "rec3" [("Name", jstr "Task 3")],
                mkRecord "rec4" [("Name", jstr "Task 4")],
                mkRecord "rec5" [("Name", jstr "Task 5")]]
    nextRecordId := 6 }

/-- A base holding the sample in-memory table. -/
def sampleMockBase : MockBase :=
  { tables := [sampleMockTable] }

/-- A base holding the sample file-backed table. -/
def sampleCsvBase : CsvBase :=
  { tables := [sampleCsvTable] }

/-- A remote base with one cached binding. -/
def sampleRemoteBase : RemoteBase :=
  { tables := [{ name := "Tasks" }], tableMap := [("Tasks", { name := "Tasks" })] }

/-- A file whose single cell loads as a boolean (concrete input for the
round-trip counterexample). -/
def boolFile : CsvFile :=
  { header := ["id", "Flag"], rows := [["rec1", "true"]] }

/-- The boolean-valued table, auto-save on. -/
def boolTable : CsvTable :=
  loadCsvTable "T" boolFile true

/-- A mixed-type file (plain strings, positive and negative numbers, an
empty cell that loads as null) used as the concrete round-trip witness
input. -/
def mixedFile : CsvFile :=
  { header := ["id", "Name", "Count", "Empty"]
    rows := [["rec1", "Task A", "10", ""],
             ["rec2", "Task B", "-5", "x y"]] }

/-- The mixed-type table, auto-save on. -/
def mixedTable : CsvTable :=
  loadCsvTable "Mixed" mixedFile true

/-- Records with a deliberate full tie (r2 and r4 agree on both sort
fields) for the stable-sort witness. -/
def tieR1 : RecordA := mkRecord "r1" [("a", jstr "x"), ("b", jstr "1")]

/-- Second tie-witness record. -/
def tieR2 : RecordA := mkRecord "r2" [("a", jstr "x"), ("b", jstr "2")]

/-- Third tie-witness record. -/
def tieR3 : RecordA := mkRecord "r3" [("a", jstr "y"), ("b", jstr "0")]

/-- Fourth tie-witness record: same field values as tieR2, distinct id. -/
def tieR4 : RecordA := mkRecord "r4" [("a", jstr "x"), ("b", jstr "2")]

/-- The tie-witness record list. -/
def tieRecords : List RecordA := [tieR1, tieR2, tieR3, tieR4]

/-- A two-key sort: by "a" ascending (default direction), then by "b"
descending. -/
def tieSorts : List SortKey :=
  [{ field := "a", direction := none }, { field := "b", direction := descDir }]

/-- C9: for every record of every backend and every field name,
getCellValue returns the stored value when the field is present with a
value that is neither null nor undefined, returns null when the field is
absent or explicitly null, and never returns undefined (and never
throws, being total). -/
theorem C9_getCellValue_null_safety (r : RecordA) (k : String) :
    (∀ v, jsGet r.fields k = v → v ≠ jnull → v ≠ undef → getCellValue r k = v) ∧
    ((jsGet r.fields k = jnull ∨ jsGet r.fields k = undef) → getCellValue r k = jnull) ∧
    getCellValue r k ≠ undef := by
  refine ⟨?_, ?_, ?_⟩
  · intro v hv hn hu
    unfold getCellValue
    rw [hv]
    cases v <;> simp_all [getCellValue]
  · intro h
    unfold getCellValue
    rcases h with h | h <;> rw [h]
  · unfold getCellValue
    cases jsGet r.fields k <;> simp

/-- Witness for C9 at a concrete record: a present numeric field is
returned as stored, an absent field reads as null. -/
theorem C9_witness :
    getCellValue (mkRecord "rec1" [("A", jnum 5)]) "A" = jnum 5 ∧
    getCellValue (mkRecord "rec1" [("A", jnum 5)]) "B" = jnull := by
  constructor
  · exact (C9_getCellValue_null_safety (mkRecord "rec1" [("A", jnum 5)]) "A").1
      (jnum 5) rfl (by simp) (by simp)
  · exact (C9_getCellValue_null_safety (mkRecord "rec1" [("A", jnum 5)]) "B").2.1
      (Or.inr rfl)

/-- C10: the public name of a file-backed or in-memory record is derived
asymmetrically.  At construction it is the "Name" field's value when that
value is truthy and otherwise the record id; on an update that writes the
"Name" key (with any non-undefined value) it becomes that value
unconditionally, with no fallback for null or the empty string; an update
that does not mention "Name" leaves it alone. -/
theorem C10_name_asymmetry (id : String) (fields updates : FieldSet) (r : RecordA) :
    (jvTruthy (jsGet fields "Name") = true →
      (mkRecord id fields).name = jsGet fields "Name") ∧
    (jvTruthy (jsGet fields "Name") = false → (mkRecord id fields).name = jstr id) ∧
    (isUndef (jsGet updates "Name") = false →
      (recUpdateFields r updates).name = jsGet updates "Name") ∧
    (isUndef (jsGet updates "Name") = true →
      (recUpdateFields r updates).name = r.name) := by
  refine ⟨fun h => ?_, fun h => ?_, fun h => ?_, fun h => ?_⟩ <;>
    simp [mkRecord, recUpdateFields, h]

/-- Witness for C10: an empty "Name" falls back to the id at
construction, while updating "Name" to null leaves the name null with no
fallback. -/
theorem C10_witness :
    (mkRecord "rec9" [("Name", jstr "")]).name = jstr "rec9" ∧
    (recUpdateFields (mkRecord "rec9" [("Name", jstr "A")]) [("Name", jnull)]).name = jnull := by
  constructor
  · exact (C10_name_asymmetry "rec9" [("Name", jstr "")] [] (mkRecord "x" [])).2.1 (by decide)
  · exact (C10_name_asymmetry "x" [] [("Name", jnull)]
      (mkRecord "rec9" [("Name", jstr "A")])).2.2.1 (by decide)

/-- C8 (code bug evidence): validateFieldSet does reject an
undefined-valued field set with a Validation error, but no write path
invokes it: an update whose field set carries an explicitly undefined
value reports no error, stores the undefined value, and the same holds on
the in-memory backend; a non-object field set is likewise rejected by the
validator alone. -/
theorem C8_validation_not_wired :
    validateFieldSet (jobj [("Status", undef)]) =
      some (AErr.validation "Field \"Status\" has undefined value. Use null to clear a field.") ∧
    validateFieldSet (jnum 3) = some (AErr.validation "Fields must be a non-null object") ∧
    (csvUpdateRecord sampleCsvTable "rec1" [("Status", undef)]).2 = none ∧
    ((csvUpdateRecord sampleCsvTable "rec1" [("Status", undef)]).1.records.map
        (fun r => jsGet r.fields "Status")) =
      [undef, jstr "Done", jstr "Pending", jstr "Done", jstr "Pending"] ∧
    (mockUpdateRecord sampleMockTable "rec1" [("X", undef)]).2 = none := by
  refine ⟨rfl, rfl, rfl, rfl, rfl⟩

/-- C4: updating or deleting an identifier that no record of the table
carries fails with the record-not-found error on both the file-backed and
the in-memory backend, and the failed call returns the table state
completely unchanged. -/
theorem C4_not_found_symmetry (tc : CsvTable) (tm : MockTable) (id : String)
    (fields : FieldSet)
    (hc : ∀ r ∈ tc.records, r.id ≠ id) (hm : ∀ r ∈ tm.records, r.id ≠ id) :
    csvUpdateRecord tc id fields = (tc, some (AErr.recordNotFound id tc.name)) ∧
    csvDeleteRecord tc id = (tc, some (AErr.recordNotFound id tc.name)) ∧
    mockUpdateRecord tm id fields = (tm, some (AErr.recordNotFound id tm.name)) ∧
    mockDeleteRecord tm id = (tm, some (AErr.recordNotFound id tm.name)) := by
  have hfc : tc.records.find? (fun r => r.id = id) = none := by
    rw [List.find?_eq_none]
    intro r hr
    simpa using hc r hr
  have hfm : tm.records.find? (fun r => r.id = id) = none := by
    rw [List.find?_eq_none]
    intro r hr
    simpa using hm r hr
  have hac : tc.records.any (fun r => r.id = id) = false := by
    simp only [List.any_eq_false, decide_eq_true_eq]
    exact hc
  have ham : tm.records.any (fun r => r.id = id) = false := by
    simp only [List.any_eq_false, decide_eq_true_eq]
    exact hm
  refine ⟨?_, ?_, ?_, ?_⟩
  · simp [csvUpdateRecord, hfc]
  · simp [csvDeleteRecord, hac]
  · simp [mockUpdateRecord, hfm]
  · simp [mockDeleteRecord, ham]

/-- Witness for C4 at concrete tables and the unknown id "rec999". -/
theorem C4_witness :
    csvUpdateRecord sampleCsvTable "rec999" [("Status", jstr "X")] =
      (sampleCsvTable, some (AErr.recordNotFound "rec999" "Tasks")) ∧
    mockDeleteRecord sampleMockTable "rec999" =
      (sampleMockTable, some (AErr.recordNotFound "rec999" "Tasks")) := by
  have h := C4_not_found_symmetry sampleCsvTable sampleMockTable "rec999"
    [("Status", jstr "X")] (by decide) (by decide)
  exact ⟨h.1, h.2.2.2⟩

/-- Batched file-backend updates compose sequentially: a successful
prefix threads its final state into the rest of the batch. -/
theorem csvUpdateRecords_append_ok {tc tc1 : CsvTable}
    {pre : List (String × FieldSet)} (rest : List (String × FieldSet))
    (h : csvUpdateRecords tc pre = (tc1, none)) :
    csvUpdateRecords tc (pre ++ rest) = csvUpdateRecords tc1 rest := by
  induction pre generalizing tc with
  | nil =>
    simp only [csvUpdateRecords] at h
    cases h
    simp
  | cons e pre ih =>
    obtain ⟨id, fields⟩ := e
    simp only [csvUpdateRecords] at h ⊢
    cases hstep : csvUpdateRecord tc id fields with
    | mk t1 err =>
      cases err with
      | none =>
        rw [hstep] at h
        simpa using ih h
      | some e0 =>
        rw [hstep] at h
        simp at h

/-- Batched in-memory updates compose sequentially in the same way. -/
theorem mockUpdateRecords_append_ok {tm tm1 : MockTable}
    {pre : List (String × FieldSet)} (rest : List (String × FieldSet))
    (h : mockUpdateRecords tm pre = (tm1, none)) :
    mockUpdateRecords tm (pre ++ rest) = mockUpdateRecords tm1 rest := by
  induction pre generalizing tm with
  | nil =>
    simp only [mockUpdateRecords] at h
    cases h
    simp
  | cons e pre ih =>
    obtain ⟨id, fields⟩ := e
    simp only [mockUpdateRecords] at h ⊢
    cases hstep : mockUpdateRecord tm id fields with
    | mk t1 err =>
      cases err with
      | none =>
        rw [hstep] at h
        simpa using ih h
      | some e0 =>
        rw [hstep] at h
        simp at h

/-- C3: a batched update is the sequential composition of single awaited
updates with no rollback.  The first conjuncts state the sequential
unfolding itself; the last two state the abort behaviour on both
backends: when every entry of a prefix succeeds and the next entry names
an absent identifier, the batch returns the state produced by the prefix
(earlier entries stay applied), reports that entry's not-found error, and
the remaining entries are never attempted (the result does not depend on
them). -/
theorem C3_batch_abort_on_first_failure
    (tc tc1 : CsvTable) (tm tm1 : MockTable)
    (pre post prem postm : List (String × FieldSet))
    (id idm : String) (fs fsm : FieldSet)
    (hc : csvUpdateRecords tc pre = (tc1, none))
    (hcid : ∀ r ∈ tc1.records, r.id ≠ id)
    (hm : mockUpdateRecords tm prem = (tm1, none))
    (hmid : ∀ r ∈ tm1.records, r.id ≠ idm) :
    (∀ (t : CsvTable) (e : String × FieldSet) (rest : List (String × FieldSet)),
      csvUpdateRecords t (e :: rest) =
        match csvUpdateRecord t e.1 e.2 with
        | (t1, none) => csvUpdateRecords t1 rest
        | (t1, some er) => (t1, some er)) ∧
    (∀ (t : MockTable) (e : String × FieldSet) (rest : List (String × FieldSet)),
      mockUpdateRecords t (e :: rest) =
        match mockUpdateRecord t e.1 e.2 with
        | (t1, none) => mockUpdateRecords t1 rest
        | (t1, some er) => (t1, some er)) ∧
    csvUpdateRecords tc (pre ++ (id, fs) :: post) =
      (tc1, some (AErr.recordNotFound id tc1.name)) ∧
    mockUpdateRecords tm (prem ++ (idm, fsm) :: postm) =
      (tm1, some (AErr.recordNotFound idm tm1.name)) := by
  have hfc : tc1.records.find? (fun r => r.id = id) = none := by
    rw [List.find?_eq_none]
    intro r hr
    simpa using hcid r hr
  have hfm : tm1.records.find? (fun r => r.id = idm) = none := by
    rw [List.find?_eq_none]
    intro r hr
    simpa using hmid r hr
  refine ⟨?_, ?_, ?_, ?_⟩
  · rintro t ⟨i, f⟩ rest
    rfl
  · rintro t ⟨i, f⟩ rest
    rfl
  · rw [csvUpdateRecords_append_ok _ hc]
    simp [csvUpdateRecords, csvUpdateRecord, hfc]
  · rw [mockUpdateRecords_append_ok _ hm]
    simp [mockUpdateRecords, mockUpdateRecord, hfm]

/-- Witness for C3: in a five-entry batch whose third entry names the
absent id "rec999", entries one and two stay applied, the third entry's
error surfaces, and entries four and five are never applied, on both
backends. -/
theorem C3_witness :
    csvUpdateRecords sampleCsvTable
        [("rec1", [("Status", jstr "A")]), ("rec2", [("Status", jstr "B")]),
         ("rec999", [("Status", jstr "C")]), ("rec4", [("Status", jstr "D")]),
         ("rec5", [("Status", jstr "E")])] =
      ((csvUpdateRecords sampleCsvTable
          [("rec1", [("Status", jstr "A")]), ("rec2", [("Status", jstr "B")])]).1,
        some (AErr.recordNotFound "rec999" "Tasks")) ∧
    mockUpdateRecords sampleMockTable
        [("rec1", [("Status", jstr "A")]), ("rec2", [("Status", jstr "B")]),
         ("rec999", [("Status", jstr "C")]), ("rec4", [("Status", jstr "D")]),
         ("rec5", [("Status", jstr "E")])] =
      ((mockUpdateRecords sampleMockTable
          [("rec1", [("Status", jstr "A")]), ("rec2", [("Status", jstr "B")])]).1,
        some (AErr.recordNotFound "rec999" "Tasks")) := by
  have h := C3_batch_abort_on_first_failure
    sampleCsvTable
    (csvUpdateRecords sampleCsvTable
      [("rec1", [("Status", jstr "A")]), ("rec2", [("Status", jstr "B")])]).1
    sampleMockTable
    (mockUpdateRecords sampleMockTable
      [("rec1", [("Status", jstr "A")]), ("rec2", [("Status", jstr "B")])]).1
    [("rec1", [("Status", jstr "A")]), ("rec2", [("Status", jstr "B")])]
    [("rec4", [("Status", jstr "D")]), ("rec5", [("Status", jstr "E")])]
    [("rec1", [("Status", jstr "A")]), ("rec2", [("Status", jstr "B")])]
    [("rec4", [("Status", jstr "D")]), ("rec5", [("Status", jstr "E")])]
    "rec999" "rec999" [("Status", jstr "C")] [("Status", jstr "C")]
    rfl (by decide) rfl (by decide)
  exact ⟨h.2.2.1, h.2.2.2⟩

/-- saveToCsv is the identity when auto-save is off. -/
theorem saveToCsv_of_autoSave_false {t : CsvTable} (h : t.autoSave = false) :
    saveToCsv t = t := by
  simp [saveToCsv, h]

/-- No single operation changes the auto-save setting. -/
theorem applyOp_autoSave (t : CsvTable) (op : TableOp) :
    (applyOp t op).autoSave = t.autoSave := by
  cases op with
  | create fields => simp [applyOp, csvCreateRecord, saveToCsv]; split <;> rfl
  | update id fields =>
    simp only [applyOp, csvUpdateRecord]
    cases t.records.find? (fun r => r.id = id) <;> (simp [saveToCsv]; try (split <;> rfl))
  | delete id =>
    simp only [applyOp, csvDeleteRecord]
    split <;> (simp [saveToCsv]; try (split <;> rfl))

/-- With auto-save off, no single operation touches the backing file. -/
theorem applyOp_file {t : CsvTable} (op : TableOp) (h : t.autoSave = false) :
    (applyOp t op).file = t.file := by
  cases op with
  | create fields => simp [applyOp, csvCreateRecord, saveToCsv, h]
  | update id fields =>
    simp only [applyOp, csvUpdateRecord]
    cases t.records.find? (fun r => r.id = id) <;> simp [saveToCsv, h]
  | delete id =>
    simp only [applyOp, csvDeleteRecord]
    split <;> simp [saveToCsv, h]

/-- C7: with auto-save disabled, every sequence of create, update and
delete operations (the batch operations of the adapter being sequential
compositions of these) leaves the backing file's content untouched, and
reloading that untouched file therefore reproduces exactly what loading
it originally produced. -/
theorem C7_autosave_off_never_writes (t : CsvTable) (ops : List TableOp)
    (entries : List (String × FieldSet)) (creates : List FieldSet)
    (dels : List String) (h : t.autoSave = false) :
    (applyOps t ops).file = t.file ∧
    (csvUpdateRecords t entries).1.file = t.file ∧
    (csvCreateRecords t creates).1.file = t.file ∧
    (csvDeleteRecords t dels).1.file = t.file ∧
    (∀ (name : String) (auto2 : Bool),
      loadCsvTable name (applyOps t ops).file auto2 = loadCsvTable name t.file auto2) := by
  have hops : ∀ (l : List TableOp) (t0 : CsvTable), t0.autoSave = false →
      (applyOps t0 l).file = t0.file ∧ (applyOps t0 l).autoSave = false := by
    intro l
    induction l with
    | nil => intro t0 h0; exact ⟨rfl, h0⟩
    | cons op rest ih =>
      intro t0 h0
      have h1 := applyOp_autoSave t0 op
      rw [h0] at h1
      have h2 := ih (applyOp t0 op) h1
      refine ⟨?_, h2.2⟩
      rw [show applyOps t0 (op :: rest) = applyOps (applyOp t0 op) rest from rfl,
        h2.1, applyOp_file op h0]
  have hupd : ∀ (l : List (String × FieldSet)) (t0 : CsvTable), t0.autoSave = false →
      (csvUpdateRecords t0 l).1.file = t0.file ∧ (csvUpdateRecords t0 l).1.autoSave = false := by
    intro l
    induction l with
    | nil => intro t0 h0; exact ⟨rfl, h0⟩
    | cons e rest ih =>
      intro t0 h0
      obtain ⟨id, fields⟩ := e
      have hsf := applyOp_file (TableOp.update id fields) h0
      have hsa := applyOp_autoSave t0 (TableOp.update id fields)
      rw [h0] at hsa
      simp only [applyOp] at hsf hsa
      simp only [csvUpdateRecords]
      cases hstep : csvUpdateRecord t0 id fields with
      | mk t1 err =>
        rw [hstep] at hsf hsa
        have hsf1 : t1.file = t0.file := hsf
        have hsa1 : t1.autoSave = false := hsa
        cases err with
        | none =>
          have := ih t1 hsa1
          simpa [hsf1] using this
        | some e0 => exact ⟨hsf1, hsa1⟩
  have hcre : ∀ (l : List FieldSet) (t0 : CsvTable), t0.autoSave = false →
      (csvCreateRecords t0 l).1.file = t0.file ∧ (csvCreateRecords t0 l).1.autoSave = false := by
    intro l
    induction l with
    | nil => intro t0 h0; exact ⟨rfl, h0⟩
    | cons fields rest ih =>
      intro t0 h0
      have hsf := applyOp_file (TableOp.create fields) h0
      have hsa := applyOp_autoSave t0 (TableOp.create fields)
      rw [h0] at hsa
      simp only [applyOp] at hsf hsa
      simp only [csvCreateRecords]
      cases hstep : csvCreateRecord t0 fields with
      | mk t1 id =>
        rw [hstep] at hsf hsa
        have hsf1 : t1.file = t0.file := hsf
        have hsa1 : t1.autoSave = false := hsa
        have := ih t1 hsa1
        cases hrest : csvCreateRecords t1 rest with
        | mk t2 ids =>
          rw [hrest] at this
          exact ⟨by simpa [hsf1] using this.1, by simpa using this.2⟩
  have hdel : ∀ (l : List String) (t0 : CsvTable), t0.autoSave = false →
      (csvDeleteRecords t0 l).1.file = t0.file ∧ (csvDeleteRecords t0 l).1.autoSave = false := by
    intro l
    induction l with
    | nil => intro t0 h0; exact ⟨rfl, h0⟩
    | cons id rest ih =>
      intro t0 h0
      have hsf := applyOp_file (TableOp.delete id) h0
      have hsa := applyOp_autoSave t0 (TableOp.delete id)
      rw [h0] at hsa
      simp only [applyOp] at hsf hsa
      simp only [csvDeleteRecords]
      cases hstep : csvDeleteRecord t0 id with
      | mk t1 err =>
        rw [hstep] at hsf hsa
        have hsf1 : t1.file = t0.file := hsf
        have hsa1 : t1.autoSave = false := hsa
        cases err with
        | none =>
          have := ih t1 hsa1
          simpa [hsf1] using this
        | some e0 => exact ⟨hsf1, hsa1⟩
  refine ⟨(hops ops t h).1, (hupd entries t h).1, (hcre creates t h).1,
    (hdel dels t h).1, ?_⟩
  intro name auto2
  rw [(hops ops t h).1]

/-- Witness for C7: a concrete update-create-delete sequence against the
sample table with auto-save off leaves the file grid exactly sampleFile. -/
theorem C7_witness :
    (applyOps sampleCsvTable
      [TableOp.update "rec1" [("Status", jstr "X")],
       TableOp.create [("Name", jstr "New")],
       TableOp.delete "rec2"]).file = sampleFile := by
  have h := C7_autosave_off_never_writes sampleCsvTable
    [TableOp.update "rec1" [("Status", jstr "X")],
     TableOp.create [("Name", jstr "New")],
     TableOp.delete "rec2"] [] [] [] rfl
  exact h.1

/-- C6 counterexample: on the in-memory base the table-not-found message
does not list the available table names — with table "Tasks" loaded, the
error for "Nope" reads exactly like a bare not-found and never mentions
"Tasks". -/
theorem C6_counterexample :
    mockGetTable sampleMockBase "Nope" = Except.error (AErr.tableNotFoundMock "Nope") ∧
    errMessage (AErr.tableNotFoundMock "Nope") = "Table \"Nope\" not found in base" ∧
    strContains (errMessage (AErr.tableNotFoundMock "Nope")) "Tasks" = false := by
  refine ⟨rfl, rfl, by decide⟩

/-- C6 (amended): an unknown name fails on the file base with a
table-not-found error whose message lists the available table names, and
fails on the in-memory base with a bare table-not-found message (no list
of alternatives); the remote base never fails — it returns the cached
binding when present and otherwise constructs, caches and returns a new
binding without any upstream validation. -/
theorem C6_getTable_spec (bc : CsvBase) (bm : MockBase) (br : RemoteBase) (nm : String)
    (hc : ∀ t ∈ bc.tables, t.name ≠ nm)
    (hm : ∀ t ∈ bm.tables, t.id ≠ nm ∧ t.name ≠ nm) :
    (csvGetTable bc nm =
        Except.error (AErr.tableNotFoundCsv nm (bc.tables.map (fun t => t.name))) ∧
      errMessage (AErr.tableNotFoundCsv nm (bc.tables.map (fun t => t.name))) =
        "Table \"" ++ nm ++ "\" not found. Available tables: " ++
          String.intercalate ", " (bc.tables.map (fun t => t.name))) ∧
    (mockGetTable bm nm = Except.error (AErr.tableNotFoundMock nm) ∧
      errMessage (AErr.tableNotFoundMock nm) = "Table \"" ++ nm ++ "\" not found in base") ∧
    (∀ kv, br.tableMap.find? (fun p => p.1 = nm) = some kv →
      remoteGetTable br nm = (kv.2, br)) ∧
    (br.tableMap.find? (fun p => p.1 = nm) = none →
      remoteGetTable br nm =
        ({ name := nm }, { br with tableMap := br.tableMap ++ [(nm, { name := nm })] })) := by
  have hfc : bc.tables.find? (fun t => t.name = nm) = none := by
    rw [List.find?_eq_none]
    intro t ht
    simpa using hc t ht
  have hfm : bm.tables.find? (fun t => t.id = nm || t.name = nm) = none := by
    rw [List.find?_eq_none]
    intro t ht
    have := hm t ht
    simp [this.1, this.2]
  refine ⟨⟨?_, rfl⟩, ⟨?_, rfl⟩, ?_, ?_⟩
  · simp [csvGetTable, hfc]
  · simp [mockGetTable, hfm]
  · intro kv hkv
    simp [remoteGetTable, hkv]
  · intro hnone
    simp [remoteGetTable, hnone]

/-- Witness for C6 at concrete bases: the file base's message for "Nope"
lists the loaded table, the mock base fails bare, a cached remote name is
returned from the cache with the base unchanged, and an unknown remote
name mints and caches a binding. -/
theorem C6_witness :
    csvGetTable sampleCsvBase "Nope" =
      Except.error (AErr.tableNotFoundCsv "Nope" ["Tasks"]) ∧
    errMessage (AErr.tableNotFoundCsv "Nope" ["Tasks"]) =
      "Table \"Nope\" not found. Available tables: Tasks" ∧
    mockGetTable sampleMockBase "Nope" = Except.error (AErr.tableNotFoundMock "Nope") ∧
    remoteGetTable sampleRemoteBase "Tasks" = ({ name := "Tasks" }, sampleRemoteBase) ∧
    remoteGetTable sampleRemoteBase "People" =
      ({ name := "People" },
        { sampleRemoteBase with
            tableMap := sampleRemoteBase.tableMap ++ [("People", { name := "People" })] }) := by
  have h := C6_getTable_spec sampleCsvBase sampleMockBase sampleRemoteBase "Nope"
    (by decide) (by decide)
  have h2 := C6_getTable_spec sampleCsvBase sampleMockBase sampleRemoteBase "People"
    (by decide) (by decide)
  refine ⟨h.1.1, ?_, h.2.1.1, ?_, ?_⟩
  · exact h.1.2
  · exact (C6_getTable_spec ⟨[]⟩ ⟨[]⟩ sampleRemoteBase "Tasks"
      (by decide) (by decide)).2.2.1 ("Tasks", { name := "Tasks" }) rfl
  · exact h2.2.2.2 rfl

/-- C5: the load-time type inference follows exactly the claimed
precedence — empty text is null; case-insensitive true/false is the
boolean; text Number() accepts (and that does not trim to nothing) is
that number; bracket- or brace-delimited text that JSON.parse accepts is
the parsed structure; everything else stays the raw string — and the
inference is applied once while loading a row, so the stored field values
are the already-converted ones. -/
theorem C5_parseValue_precedence (v : String) (n : Int) (j : JVal)
    (header cells : List String) (nid : Nat) :
    parseValue "" = jnull ∧
    (asciiLower v = "true" → parseValue v = jbool true) ∧
    (asciiLower v = "false" → parseValue v = jbool false) ∧
    (asciiLower v ≠ "true" → asciiLower v ≠ "false" →
      jsNumberOpt v = some n → jsTrim v ≠ "" → parseValue v = jnum n) ∧
    (v ≠ "" → asciiLower v ≠ "true" → asciiLower v ≠ "false" →
      (jsNumberOpt v = none ∨ jsTrim v = "") →
      jsonDelimitedB v = true → jsonParseOpt v = some j → parseValue v = j) ∧
    (v ≠ "" → asciiLower v ≠ "true" → asciiLower v ≠ "false" →
      (jsNumberOpt v = none ∨ jsTrim v = "") →
      (jsonDelimitedB v = false ∨ jsonParseOpt v = none) → parseValue v = jstr v) ∧
    (loadRow header cells nid).1.fields =
      ((header.zip cells).filter (fun kv => asciiLower kv.1 ≠ "id")).map
        (fun kv => (kv.1, parseValue kv.2)) := by
  have hemp : v = "" → asciiLower v ≠ "true" ∧ asciiLower v ≠ "false" := by
    rintro rfl
    constructor <;> decide
  refine ⟨rfl, ?_, ?_, ?_, ?_, ?_, ?_⟩
  · intro h
    have hne : v ≠ "" := fun he => absurd h (hemp he).1
    simp [parseValue, hne, h]
  · intro h
    have hne : v ≠ "" := fun he => absurd h (hemp he).2
    have hnt : asciiLower v ≠ "true" := by
      rw [h]; decide
    simp [parseValue, hne, hnt, h]
  · intro ht hf hn htr
    have hne : v ≠ "" := by
      intro he
      rw [he] at htr
      exact htr rfl
    simp [parseValue, hne, ht, hf, hn, htr]
  · intro hne ht hf hnum hdel hj
    rcases hnum with hnum | hnum
    · simp [parseValue, hne, ht, hf, hnum, parseValueJson, hdel, hj]
    · cases hq : jsNumberOpt v with
      | none => simp [parseValue, hne, ht, hf, hq, parseValueJson, hdel, hj]
      | some m => simp [parseValue, hne, ht, hf, hq, hnum, parseValueJson, hdel, hj]
  · intro hne ht hf hnum hjson
    have hrest : parseValueJson v = jstr v := by
      rcases hjson with hd | hp
      · simp [parseValueJson, hd]
      · simp [parseValueJson, hp]
    rcases hnum with hnum | hnum
    · simp [parseValue, hne, ht, hf, hnum, hrest]
    · cases hq : jsNumberOpt v with
      | none => simp [parseValue, hne, ht, hf, hq, hrest]
      | some m => simp [parseValue, hne, ht, hf, hq, hnum, hrest]
  · simp [loadRow, mkRecord]

/-- Witness for C5 at concrete cell texts exercising every branch of the
precedence list. -/
theorem C5_witness :
    parseValue "TRUE" = jbool true ∧
    parseValue "42" = jnum 42 ∧
    parseValue "[1,2]" = jarr [jnum 1, jnum 2] ∧
    parseValue "hello" = jstr "hello" ∧
    parseValue "[broken]" = jstr "[broken]" := by
  refine ⟨?_, ?_, ?_, ?_, ?_⟩
  · exact (C5_parseValue_precedence "TRUE" 0 jnull [] [] 0).2.1 (by decide)
  · exact (C5_parseValue_precedence "42" 42 jnull [] [] 0).2.2.2.1
      (by decide) (by decide) rfl (by decide)
  · exact (C5_parseValue_precedence "[1,2]" 0 (jarr [jnum 1, jnum 2]) [] [] 0).2.2.2.2.1
      (by decide) (by decide) (by decide) (Or.inl rfl) rfl rfl
  · exact (C5_parseValue_precedence "hello" 0 jnull [] [] 0).2.2.2.2.2.1
      (by decide) (by decide) (by decide) (Or.inl rfl) (Or.inl rfl)
  · exact (C5_parseValue_precedence "[broken]" 0 jnull [] [] 0).2.2.2.2.2.1
      (by decide) (by decide) (by decide) (Or.inl rfl) (Or.inr rfl)

/-- Code-point comparison of character lists is antisymmetric under swap. -/
theorem cmpCharList_swap (a b : List Char) :
    cmpCharList b a = (cmpCharList a b).swap := by
  induction a generalizing b with
  | nil => cases b <;> rfl
  | cons x xs ih =>
    cases b with
    | nil => rfl
    | cons y ys =>
      simp only [cmpCharList]
      rw [← Nat.compare_swap]
      cases h : compare x.toNat y.toNat <;> simp [Ordering.swap, ih]

/-- Characters with equal code points are equal. -/
theorem char_toNat_inj {x y : Char} (h : x.toNat = y.toNat) : x = y := by
  have h2 := congrArg Char.ofNat h
  rwa [Char.ofNat_toNat, Char.ofNat_toNat] at h2

/-- Code-point comparison returns eq exactly on equal lists. -/
theorem cmpCharList_eq_iff (a b : List Char) :
    cmpCharList a b = Ordering.eq ↔ a = b := by
  induction a generalizing b with
  | nil => cases b <;> simp [cmpCharList]
  | cons x xs ih =>
    cases b with
    | nil => simp [cmpCharList]
    | cons y ys =>
      simp only [cmpCharList]
      cases h : compare x.toNat y.toNat with
      | eq =>
        have hx : x = y := char_toNat_inj (Nat.compare_eq_eq.mp h)
        simp [ih, hx]
      | lt =>
        have hne : x ≠ y := fun he => by
          rw [he, Nat.compare_eq_eq.mpr rfl] at h
          exact absurd h (by decide)
        simp [hne]
      | gt =>
        have hne : x ≠ y := fun he => by
          rw [he, Nat.compare_eq_eq.mpr rfl] at h
          exact absurd h (by decide)
        simp [hne]

/-- Code-point comparison is transitive in its strict part. -/
theorem cmpCharList_lt_trans :
    ∀ {a b c : List Char}, cmpCharList a b = Ordering.lt →
      cmpCharList b c = Ordering.lt → cmpCharList a c = Ordering.lt
  | [], [], _, h1, _ => absurd h1 (by simp [cmpCharList])
  | [], _ :: _, [], _, h2 => absurd h2 (by simp [cmpCharList])
  | [], _ :: _, _ :: _, _, _ => by simp [cmpCharList]
  | _ :: _, [], _, h1, _ => absurd h1 (by simp [cmpCharList])
  | _ :: _, _ :: _, [], _, h2 => absurd h2 (by simp [cmpCharList])
  | x :: xs, y :: ys, z :: zs, h1, h2 => by
    simp only [cmpCharList] at h1 h2 ⊢
    cases hxy : compare x.toNat y.toNat with
    | gt => rw [hxy] at h1; exact absurd h1 (by simp)
    | lt =>
      cases hyz : compare y.toNat z.toNat with
      | gt => rw [hyz] at h2; exact absurd h2 (by simp)
      | lt =>
        have : compare x.toNat z.toNat = Ordering.lt :=
          Nat.compare_eq_lt.mpr
            (Nat.lt_trans (Nat.compare_eq_lt.mp hxy) (Nat.compare_eq_lt.mp hyz))
        rw [this]
      | eq =>
        have hn : y.toNat = z.toNat := Nat.compare_eq_eq.mp hyz
        rw [← hn, hxy]
    | eq =>
      have hn : x.toNat = y.toNat := Nat.compare_eq_eq.mp hxy
      cases hyz : compare y.toNat z.toNat with
      | gt => rw [hyz] at h2; exact absurd h2 (by simp)
      | lt => rw [hn, hyz]
      | eq =>
        rw [hn, hyz]
        rw [hxy] at h1
        rw [hyz] at h2
        exact cmpCharList_lt_trans h1 h2

/-- Strings with equal character data are equal. -/
theorem stringData_inj {a b : String} (h : a.data = b.data) : a = b :=
  String.ext h

/-- The one-key comparator is antisymmetric under argument swap. -/
theorem cmpRecords_swap (k : SortKey) (a b : RecordA) :
    cmpRecords k b a = (cmpRecords k a b).swap := by
  unfold cmpRecords compareStrings
  rw [cmpCharList_swap (sortKeyStr a k.field).data (sortKeyStr b k.field).data]
  by_cases hd : k.direction = descDir
  · simp [hd, Ordering.swap_swap]
  · simp [hd]

/-- The one-key comparator returns eq exactly when the two records have
the same string sort key for the field. -/
theorem cmpRecords_eq_iff (k : SortKey) (a b : RecordA) :
    cmpRecords k a b = Ordering.eq ↔ sortKeyStr a k.field = sortKeyStr b k.field := by
  unfold cmpRecords compareStrings
  have hbase : cmpCharList (sortKeyStr a k.field).data (sortKeyStr b k.field).data =
      Ordering.eq ↔ sortKeyStr a k.field = sortKeyStr b k.field := by
    rw [cmpCharList_eq_iff]
    exact ⟨fun h => stringData_inj h, fun h => by rw [h]⟩
  by_cases hd : k.direction = descDir
  · simp only [hd, if_pos rfl]
    cases hc : cmpCharList (sortKeyStr a k.field).data (sortKeyStr b k.field).data <;>
      simp_all [Ordering.swap]
  · simp only [if_neg hd]
    exact hbase

/-- The non-strict code-point order is transitive. -/
theorem cmpCharList_le_trans {a b c : List Char} (h1 : cmpCharList a b ≠ Ordering.gt)
    (h2 : cmpCharList b c ≠ Ordering.gt) : cmpCharList a c ≠ Ordering.gt := by
  cases hab : cmpCharList a b with
  | gt => exact absurd hab h1
  | eq =>
    have : a = b := (cmpCharList_eq_iff a b).mp hab
    rw [this]
    exact h2
  | lt =>
    cases hbc : cmpCharList b c with
    | gt => exact absurd hbc h2
    | eq =>
      have : b = c := (cmpCharList_eq_iff b c).mp hbc
      rw [← this]
      simp [hab]
    | lt => simp [cmpCharList_lt_trans hab hbc]

/-- The non-strict one-key record order is transitive. -/
theorem cmpRecords_le_trans {k : SortKey} {a b c : RecordA}
    (h1 : cmpRecords k a b ≠ Ordering.gt) (h2 : cmpRecords k b c ≠ Ordering.gt) :
    cmpRecords k a c ≠ Ordering.gt := by
  unfold cmpRecords compareStrings at h1 h2 ⊢
  by_cases hd : k.direction = descDir
  · rw [if_pos hd] at h1 h2 ⊢
    rw [← cmpCharList_swap] at h1 h2 ⊢
    exact cmpCharList_le_trans h2 h1
  · rw [if_neg hd] at h1 h2 ⊢
    exact cmpCharList_le_trans h1 h2

/-- The non-strict one-key record order is total. -/
theorem cmpRecords_le_total (k : SortKey) (a b : RecordA) :
    cmpRecords k a b ≠ Ordering.gt ∨ cmpRecords k b a ≠ Ordering.gt := by
  cases h : cmpRecords k a b with
  | gt =>
    right
    rw [cmpRecords_swap, h]
    decide
  | lt => left; simp
  | eq => left; simp

/-- Two distinct members of a list occur in one order or the other as a
two-element sublist. -/
theorem pair_sublist_or {α : Type} {x y : α} :
    ∀ {l : List α}, x ∈ l → y ∈ l → x ≠ y → [x, y].Sublist l ∨ [y, x].Sublist l := by
  intro l
  induction l with
  | nil => intro hx; cases hx
  | cons a rest ih =>
    intro hx hy hxy
    rcases List.mem_cons.mp hx with rfl | hx2
    · have hy2 : y ∈ rest := by
        rcases List.mem_cons.mp hy with rfl | h
        · exact absurd rfl hxy
        · exact h
      exact Or.inl (List.Sublist.cons₂ x (List.singleton_sublist.mpr hy2))
    · rcases List.mem_cons.mp hy with rfl | hy2
      · exact Or.inr (List.Sublist.cons₂ y (List.singleton_sublist.mpr hx2))
      · rcases ih hx2 hy2 hxy with h | h
        · exact Or.inl (h.cons a)
        · exact Or.inr (h.cons a)

/-- In a duplicate-free list a pair cannot occur as a sublist in both
orders unless its components are equal. -/
theorem pair_sublist_antisymm {α : Type} {x y : α} :
    ∀ {l : List α}, l.Nodup → [x, y].Sublist l → [y, x].Sublist l → x = y := by
  intro l
  induction l with
  | nil => intro _ h; cases h
  | cons a rest ih =>
    intro hnd h1 h2
    have ha : a ∉ rest := (List.nodup_cons.mp hnd).1
    have hnd2 : rest.Nodup := (List.nodup_cons.mp hnd).2
    cases h1 with
    | cons _ h1t =>
      cases h2 with
      | cons _ h2t => exact ih hnd2 h1t h2t
      | cons₂ _ h2t => exact absurd (h1t.subset (by simp)) ha
    | cons₂ _ h1t =>
      cases h2 with
      | cons _ h2t => exact absurd (h2t.subset (by simp)) ha
      | cons₂ _ h2t => rfl

/-- Transitivity of the boolean le test fed to the sort. -/
theorem leRec_trans (k : SortKey) (a b c : RecordA)
    (h1 : decide (cmpRecords k a b ≠ Ordering.gt) = true)
    (h2 : decide (cmpRecords k b c ≠ Ordering.gt) = true) :
    decide (cmpRecords k a c ≠ Ordering.gt) = true := by
  simp only [decide_eq_true_eq] at h1 h2 ⊢
  exact cmpRecords_le_trans h1 h2

/-- Totality of the boolean le test fed to the sort. -/
theorem leRec_total (k : SortKey) (a b : RecordA) :
    (decide (cmpRecords k a b ≠ Ordering.gt) ||
      decide (cmpRecords k b a ≠ Ordering.gt)) = true := by
  rcases cmpRecords_le_total k a b with h | h <;> simp [h]

/-- One sort pass permutes the records. -/
theorem sortPass_perm (k : SortKey) (l : List RecordA) : (sortPass k l).Perm l :=
  List.mergeSort_perm l _

/-- One sort pass sorts by its key comparator. -/
theorem sortPass_sorted (k : SortKey) (l : List RecordA) :
    (sortPass k l).Pairwise (fun a b => cmpRecords k a b ≠ Ordering.gt) := by
  have h := @List.sorted_mergeSort RecordA
    (fun a b => decide (cmpRecords k a b ≠ Ordering.gt))
    (leRec_trans k) (leRec_total k) l
  exact h.imp (fun hb => by simpa using hb)

/-- One sort pass is stable: records tied under the pass key keep their
relative order, in both directions. -/
theorem sortPass_stable_pair {k : SortKey} {l : List RecordA} {x y : RecordA}
    (hnd : l.Nodup) (hx : x ∈ l) (hy : y ∈ l) (hxy : x ≠ y)
    (htie : cmpRecords k x y = Ordering.eq) :
    [x, y].Sublist l ↔ [x, y].Sublist (sortPass k l) := by
  constructor
  · intro h
    exact @List.pair_sublist_mergeSort RecordA
      (fun a b => decide (cmpRecords k a b ≠ Ordering.gt)) x y l
      (leRec_trans k) (leRec_total k) (by simp [htie]) h
  · intro h
    by_contra hneg
    have hyx : [y, x].Sublist l := by
      rcases pair_sublist_or hx hy hxy with h1 | h1
      · exact absurd h1 hneg
      · exact h1
    have htie2 : cmpRecords k y x = Ordering.eq := by
      rw [cmpRecords_swap, htie]
      rfl
    have hyx2 : [y, x].Sublist (sortPass k l) :=
      @List.pair_sublist_mergeSort RecordA
        (fun a b => decide (cmpRecords k a b ≠ Ordering.gt)) y x l
        (leRec_trans k) (leRec_total k) (by simp [htie2]) hyx
    have hnds : (sortPass k l).Nodup := ((sortPass_perm k l).nodup_iff).mpr hnd
    exact hxy (pair_sublist_antisymm hnds h hyx2)

/-- Unfolding of the sort loop: the last pass applied is the
first-declared key. -/
theorem applySorts_cons (k : SortKey) (ks : List SortKey) (l : List RecordA) :
    applySorts (k :: ks) l = sortPass k (applySorts ks l) := by
  unfold applySorts
  rw [List.reverse_cons, List.foldl_append]
  rfl

/-- The sort loop produces a permutation of its input that is sorted
under the lexicographic combination of the declared keys and that keeps
tied records (tied under every key) in their input order. -/
theorem applySorts_spec (ks : List SortKey) (l : List RecordA) (hnd : l.Nodup) :
    (applySorts ks l).Perm l ∧
    (applySorts ks l).Pairwise (fun a b => lexCmp ks a b ≠ Ordering.gt) ∧
    (∀ x y, x ∈ l → y ∈ l → x ≠ y → lexCmp ks x y = Ordering.eq →
      ([x, y].Sublist l ↔ [x, y].Sublist (applySorts ks l))) := by
  induction ks with
  | nil =>
    refine ⟨List.Perm.refl l, ?_, ?_⟩
    · exact List.pairwise_iff_forall_sublist.mpr (fun _ => by simp [lexCmp])
    · intro x y _ _ _ _
      exact Iff.rfl
  | cons k ks ih =>
    obtain ⟨hperm, hsorted, hstab⟩ := ih
    have hndm : (applySorts ks l).Nodup := (hperm.nodup_iff).mpr hnd
    rw [applySorts_cons]
    have houtperm : (sortPass k (applySorts ks l)).Perm l :=
      (sortPass_perm k (applySorts ks l)).trans hperm
    have houtnd : (sortPass k (applySorts ks l)).Nodup :=
      ((sortPass_perm k (applySorts ks l)).nodup_iff).mpr hndm
    refine ⟨houtperm, ?_, ?_⟩
    · rw [List.pairwise_iff_forall_sublist]
      intro x y hsub
      have hxy : x ≠ y := by
        intro he
        subst he
        have hq := hsub.nodup houtnd
        simp at hq
      have hk : cmpRecords k x y ≠ Ordering.gt :=
        List.pairwise_iff_forall_sublist.mp (sortPass_sorted k (applySorts ks l)) hsub
      cases hc : cmpRecords k x y with
      | lt => simp [lexCmp, hc]
      | gt => exact absurd hc hk
      | eq =>
        have hxm : x ∈ applySorts ks l := by
          have : x ∈ sortPass k (applySorts ks l) := hsub.subset (by simp)
          exact ((sortPass_perm k (applySorts ks l)).mem_iff).mp this
        have hym : y ∈ applySorts ks l := by
          have : y ∈ sortPass k (applySorts ks l) := hsub.subset (by simp)
          exact ((sortPass_perm k (applySorts ks l)).mem_iff).mp this
        have hsubm : [x, y].Sublist (applySorts ks l) :=
          (sortPass_stable_pair hndm hxm hym hxy hc).mpr hsub
        have hrest : lexCmp ks x y ≠ Ordering.gt :=
          List.pairwise_iff_forall_sublist.mp hsorted hsubm
        simpa [lexCmp, hc] using hrest
    · intro x y hx hy hxy htie
      have hhead : cmpRecords k x y = Ordering.eq ∧ lexCmp ks x y = Ordering.eq := by
        cases hc : cmpRecords k x y with
        | lt => rw [lexCmp, hc] at htie; simp at htie
        | gt => rw [lexCmp, hc] at htie; simp at htie
        | eq => rw [lexCmp, hc] at htie; exact ⟨rfl, htie⟩
      have hxm : x ∈ applySorts ks l := (hperm.mem_iff).mpr hx
      have hym : y ∈ applySorts ks l := (hperm.mem_iff).mpr hy
      exact (hstab x y hx hy hxy hhead.2).trans
        (sortPass_stable_pair hndm hxm hym hxy hhead.1)

/-- selectRecords is the sort loop over the filtered records, with an
absent sorts option behaving as the empty key list. -/
theorem selectRecords_eq (records : List RecordA) (options : RecordSelectOptions) :
    selectRecords records options =
      applySorts (options.sorts.getD []) (filterSelected records options) := by
  cases h : options.sorts with
  | none => simp [selectRecords, h, applySorts]
  | some ks => simp [selectRecords, h]

/-- C1: selectRecordsAsync (whose body is shared by the file-backed and
in-memory tables) returns a stable multi-key sort of the selected
records: a permutation of the filtered records that is sorted under the
lexicographic combination of the declared keys — the first-declared key
dominating because the passes run in reverse declared order over a stable
sort — in which records tied under every key keep their filtered-input
order; the "desc" direction is the negation of the ascending comparison,
an absent direction is ascending, and the ascending comparison is the
lexical comparison of the string-coerced cell values. -/
theorem C1_select_stable_multikey_sort
    (records : List RecordA) (options : RecordSelectOptions)
    (tc : CsvTable) (tm : MockTable)
    (hnd : (records.map RecordA.id).Nodup) :
    csvSelect tc options = selectRecords tc.records options ∧
    mockSelect tm options = selectRecords tm.records options ∧
    (selectRecords records options).Perm (filterSelected records options) ∧
    (selectRecords records options).Pairwise
      (fun a b => lexCmp (options.sorts.getD []) a b ≠ Ordering.gt) ∧
    (∀ x y, x ∈ filterSelected records options →
      y ∈ filterSelected records options → x ≠ y →
      lexCmp (options.sorts.getD []) x y = Ordering.eq →
      ([x, y].Sublist (filterSelected records options) ↔
        [x, y].Sublist (selectRecords records options))) ∧
    (∀ (f : String) (a b : RecordA),
      cmpRecords { field := f, direction := descDir } a b =
        (cmpRecords { field := f, direction := none } a b).swap) ∧
    (∀ (f : String) (a b : RecordA),
      cmpRecords { field := f, direction := none } a b =
        compareStrings (sortKeyStr a f) (sortKeyStr b f)) := by
  have hnd1 : records.Nodup := hnd.of_map
  have hnd2 : (filterSelected records options).Nodup := by
    unfold filterSelected
    cases options.recordIds with
    | none => exact hnd1
    | some ids => exact hnd1.filter _
  have hspec := applySorts_spec (options.sorts.getD [])
    (filterSelected records options) hnd2
  rw [selectRecords_eq records options]
  refine ⟨rfl, rfl, hspec.1, hspec.2.1, hspec.2.2, ?_, ?_⟩
  · intro f a b
    simp [cmpRecords, descDir]
  · intro f a b
    simp [cmpRecords, descDir]

/-- String() of a string is that string (equation of the coercion used
when evaluating sort keys on concrete records). -/
theorem jsToString_jstr (s : String) : jsToString (jstr s) = s := by
  simp [jsToString]

/-- Witness for C1: a two-key sort (by "a" ascending then "b"
descending) over four concrete records, two of which are fully tied,
applied through the theorem: the output is a permutation of the input and
the tied pair keeps its input order. -/
theorem C1_witness :
    (selectRecords tieRecords { sorts := some tieSorts }).Perm tieRecords ∧
    ([tieR2, tieR4].Sublist tieRecords ↔
      [tieR2, tieR4].Sublist (selectRecords tieRecords { sorts := some tieSorts })) := by
  have h := C1_select_stable_multikey_sort tieRecords { sorts := some tieSorts }
    sampleCsvTable sampleMockTable (by decide)
  refine ⟨h.2.2.1, ?_⟩
  refine h.2.2.2.2.1 tieR2 tieR4 ?_ ?_ ?_ ?_
  · exact List.mem_cons_of_mem _ (List.mem_cons_self _ _)
  · exact List.mem_cons_of_mem _ (List.mem_cons_of_mem _
      (List.mem_cons_of_mem _ (List.mem_cons_self _ _)))
  · intro he
    exact absurd (congrArg RecordA.id he) (by decide)
  · have hb1 : cmpRecords { field := "a", direction := none } tieR2 tieR4 = Ordering.eq :=
      (cmpRecords_eq_iff _ _ _).mpr (by
        simp [sortKeyStr, tieR2, tieR4, getCellValue, jsGet, mkRecord, jsToString_jstr])
    have hb2 : cmpRecords { field := "b", direction := descDir } tieR2 tieR4 = Ordering.eq :=
      (cmpRecords_eq_iff _ _ _).mpr (by
        simp [sortKeyStr, tieR2, tieR4, getCellValue, jsGet, mkRecord, jsToString_jstr])
    show lexCmp tieSorts tieR2 tieR4 = Ordering.eq
    simp [lexCmp, tieSorts, hb1, hb2]


/-- A digit character's code point lies between 48 and 57. -/
theorem digit_bounds {c : Char} (h : c.isDigit = true) :
    48 ≤ c.toNat ∧ c.toNat ≤ 57 := by
  simp only [Char.isDigit, ge_iff_le, Bool.and_eq_true, decide_eq_true_eq] at h
  obtain ⟨h1, h2⟩ := h
  exact ⟨UInt32.le_toNat_of_le (by norm_num) h1, UInt32.toNat_le_of_le (by norm_num) h2⟩

/-- The digit character of one decimal digit. -/
theorem ofNat_digit_toNat {m : Nat} (h : m < 10) :
    (Char.ofNat (48 + m)).toNat = 48 + m := by
  interval_cases m <;> decide

/-- The character of one decimal digit is a digit. -/
theorem ofNat_digit_isDigit {m : Nat} (h : m < 10) :
    (Char.ofNat (48 + m)).isDigit = true := by
  interval_cases m <;> decide

/-- Reading the digits of n yields n back. -/
theorem digitsVal_natChars (n : Nat) : digitsVal (natChars n) = n := by
  induction n using Nat.strong_induction_on with
  | _ n ih =>
    unfold natChars
    split
    · rename_i h
      simp [digitsVal, ofNat_digit_toNat h]
    · rename_i h
      have hd : n / 10 < n := Nat.div_lt_self (by omega) (by omega)
      have hm : n % 10 < 10 := Nat.mod_lt _ (by omega)
      rw [show digitsVal (natChars (n / 10) ++ [Char.ofNat (48 + n % 10)]) =
          digitsVal (natChars (n / 10)) * 10 +
            ((Char.ofNat (48 + n % 10)).toNat - 48) by
        simp [digitsVal, List.foldl_append]]
      rw [ih (n / 10) hd, ofNat_digit_toNat hm]
      omega

/-- Every character of natChars is a digit. -/
theorem natChars_all_digits (n : Nat) : ∀ c ∈ natChars n, c.isDigit = true := by
  induction n using Nat.strong_induction_on with
  | _ n ih =>
    intro c hc
    unfold natChars at hc
    split at hc
    · rename_i h
      simp at hc
      subst hc
      exact ofNat_digit_isDigit h
    · rename_i h
      rcases List.mem_append.mp hc with h2 | h2
      · exact ih (n / 10) (Nat.div_lt_self (by omega) (by omega)) c h2
      · simp at h2
        subst h2
        exact ofNat_digit_isDigit (Nat.mod_lt _ (by omega))

/-- A digit character is not whitespace. -/
theorem digit_not_ws {c : Char} (h : c.isDigit = true) : isWsChar c = false := by
  have := digit_bounds h
  by_contra hw
  simp only [Bool.not_eq_false, isWsChar, Bool.or_eq_true, decide_eq_true_eq] at hw
  rcases hw with ((h1 | h1) | h1) | h1 <;> (subst h1; simp at this)

/-- Lower-casing fixes characters outside the upper-case ASCII range. -/
theorem lowerChar_fix {c : Char} (h : c.toNat < 65 ∨ 90 < c.toNat) :
    lowerChar c = c := by
  unfold lowerChar
  rw [if_neg]
  rintro ⟨h1, h2⟩
  have b1 : 65 ≤ c.toNat := UInt32.le_toNat_of_le (by norm_num) (Char.le_def.mp h1)
  have b2 : c.toNat ≤ 90 := UInt32.toNat_le_of_le (by norm_num) (Char.le_def.mp h2)
  omega

/-- A string whose first character is small-and-not-a-letter cannot
lower-case to "true" or "false". -/
theorem asciiLower_ne_keywords {s : String} {c : Char} {cs : List Char}
    (hd : s.data = c :: cs) (hfix : lowerChar c = c)
    (ht : c ≠ 't') (hf : c ≠ 'f') :
    asciiLower s ≠ "true" ∧ asciiLower s ≠ "false" := by
  constructor
  · intro he
    have h0 : (asciiLower s).data = "true".data := by rw [he]
    have h3 : s.data.map lowerChar = "true".data := h0
    rw [hd, List.map_cons] at h3
    have hc := List.head_eq_of_cons_eq h3
    rw [hfix] at hc
    exact ht hc
  · intro he
    have h0 : (asciiLower s).data = "false".data := by rw [he]
    have h3 : s.data.map lowerChar = "false".data := h0
    rw [hd, List.map_cons] at h3
    have hc := List.head_eq_of_cons_eq h3
    rw [hfix] at hc
    exact hf hc

/-- Strings with non-whitespace first and last characters are fixed by
trimming. -/
theorem jsTrim_fix {s : String} {c d : Char} {cs : List Char}
    (hd : s.data = c :: cs) (h1 : isWsChar c = false)
    (h2 : (c :: cs).getLast? = some d) (h3 : isWsChar d = false) :
    jsTrim s = s := by
  apply stringData_inj
  show ((s.data.dropWhile isWsChar).reverse.dropWhile isWsChar).reverse = s.data
  rw [hd]
  rw [List.dropWhile_cons_of_neg (by simp [h1])]
  have hrev : (c :: cs).reverse.head? = some d := by
    rw [List.head?_reverse]
    exact h2
  rcases List.exists_cons_of_ne_nil (show (c :: cs).reverse ≠ [] by simp) with ⟨e, es, he⟩
  rw [he] at hrev ⊢
  simp only [List.head?_cons, Option.some.injEq] at hrev
  cases hrev
  rw [List.dropWhile_cons_of_neg (by simp [h3])]
  rw [← he, List.reverse_reverse]

/-- The decimal digits of a natural number are nonempty. -/
theorem natChars_ne_nil (n : Nat) : natChars n ≠ [] := by
  unfold natChars
  split <;> simp

/-- A wholly non-whitespace string is fixed by trimming. -/
theorem jsTrim_fix_of_all {s : String} (hne : s.data ≠ [])
    (h : ∀ x ∈ s.data, isWsChar x = false) : jsTrim s = s := by
  obtain ⟨c, cs, hc⟩ := List.exists_cons_of_ne_nil hne
  have hl : ∃ d, (c :: cs).getLast? = some d := by
    cases hgl : (c :: cs).getLast? with
    | some d => exact ⟨d, rfl⟩
    | none => simp at hgl
  obtain ⟨d, hd⟩ := hl
  have hdm : d ∈ c :: cs := List.mem_of_getLast?_eq_some hd
  exact jsTrim_fix hc (h c (by rw [hc]; simp)) hd (h d (by rw [hc]; exact hdm))

/-- The decimal text of an integer: its character list. -/
theorem intToString_data (n : Int) :
    (intToString n).data =
      if n < 0 then '-' :: natChars n.natAbs else natChars n.natAbs := by
  unfold intToString
  split <;> rfl

/-- No character of an integer's decimal text is whitespace. -/
theorem intToString_no_ws (n : Int) :
    ∀ x ∈ (intToString n).data, isWsChar x = false := by
  intro x hx
  rw [intToString_data] at hx
  split at hx
  · rcases List.mem_cons.mp hx with rfl | hx2
    · decide
    · exact digit_not_ws (natChars_all_digits _ x hx2)
  · exact digit_not_ws (natChars_all_digits _ x hx)

/-- The decimal text of an integer is nonempty. -/
theorem intToString_ne_nil (n : Int) : (intToString n).data ≠ [] := by
  rw [intToString_data]
  split
  · simp
  · exact natChars_ne_nil _

/-- Number() reads back the decimal text of any integer. -/
theorem jsNumberOpt_intToString (n : Int) : jsNumberOpt (intToString n) = some n := by
  have htrim : jsTrim (intToString n) = intToString n :=
    jsTrim_fix_of_all (intToString_ne_nil n) (intToString_no_ws n)
  unfold jsNumberOpt
  rw [htrim]
  rcases lt_or_ge n 0 with h | h
  · have hdata : (intToString n).data = '-' :: natChars n.natAbs := by
      rw [intToString_data, if_pos h]
    rw [hdata]
    split
    · rename_i heq
      simp at heq
    · rename_i heq
      obtain ⟨-, hds⟩ := List.cons.inj heq
      subst hds
      rw [if_pos ⟨natChars_ne_nil _, List.all_eq_true.mpr
        (fun c hc => natChars_all_digits _ c hc)⟩]
      rw [digitsVal_natChars]
      congr 1
      omega
    · rename_i heq
      obtain ⟨hbad, -⟩ := List.cons.inj heq
      exact absurd hbad (by decide)
    · rename_i hno1 hno2 hno3
      exact absurd rfl (hno2 (natChars n.natAbs))
  · obtain ⟨c, cs, hc⟩ := List.exists_cons_of_ne_nil (natChars_ne_nil n.natAbs)
    have hcd : c.isDigit = true := natChars_all_digits _ c (by rw [hc]; simp)
    have hdata : (intToString n).data = c :: cs := by
      rw [intToString_data, if_neg (by omega), hc]
    rw [hdata]
    split
    · rename_i heq
      simp at heq
    · rename_i heq
      obtain ⟨hbad, -⟩ := List.cons.inj heq
      subst hbad
      have := digit_bounds hcd
      simp at this
    · rename_i heq
      obtain ⟨hbad, -⟩ := List.cons.inj heq
      subst hbad
      have := digit_bounds hcd
      simp at this
    · rw [if_pos (List.all_eq_true.mpr (fun x hx => by
        rw [← hc] at hx
        exact natChars_all_digits _ x hx))]
      rw [← hc, digitsVal_natChars]
      congr 1
      omega

/-- After a value, a valid continuation never starts with a digit: the
greedy number token reader takes nothing from it. -/
theorem restOk_digits {rest : List Char} (h : restOk rest) :
    rest.takeWhile (fun c => c.isDigit) = [] ∧
    rest.dropWhile (fun c => c.isDigit) = rest := by
  cases rest with
  | nil => simp
  | cons c cs =>
    have h2 : c = ',' ∨ c = ']' ∨ c = '}' := h
    rcases h2 with rfl | rfl | rfl <;>
      exact ⟨by simp [List.takeWhile_cons], by simp [List.dropWhile_cons]⟩

/-- The number token reader reads back an integer's decimal text. -/
theorem parseNum_intToString (n : Int) {rest : List Char} (h : restOk rest) :
    parseNum ((intToString n).data ++ rest) = some (n, rest) := by
  obtain ⟨htake, hdrop⟩ := restOk_digits h
  have hall : ∀ c ∈ natChars n.natAbs, (fun c => c.isDigit) c = true :=
    fun c hc => natChars_all_digits _ c hc
  rcases lt_or_ge n 0 with hn | hn
  · rw [intToString_data, if_pos hn, List.cons_append]
    rw [show parseNum ('-' :: (natChars n.natAbs ++ rest)) =
        (if (natChars n.natAbs ++ rest).takeWhile (fun c => c.isDigit) = [] then none
         else some (-(digitsVal ((natChars n.natAbs ++ rest).takeWhile (fun c => c.isDigit)) : Int),
           (natChars n.natAbs ++ rest).dropWhile (fun c => c.isDigit))) from rfl]
    rw [List.takeWhile_append_of_pos hall, List.dropWhile_append_of_pos hall, htake, hdrop]
    rw [if_neg (by simp [natChars_ne_nil])]
    rw [List.append_nil, digitsVal_natChars]
    congr 2
    omega
  · obtain ⟨c, cs, hc⟩ := List.exists_cons_of_ne_nil (natChars_ne_nil n.natAbs)
    have hcd : c.isDigit = true := natChars_all_digits _ c (by rw [hc]; simp)
    rw [intToString_data, if_neg (by omega)]
    unfold parseNum
    rw [hc, List.cons_append]
    split
    · rename_i heq
      obtain ⟨hbad, -⟩ := List.cons.inj heq
      subst hbad
      have := digit_bounds hcd
      simp at this
    · rw [← List.cons_append, ← hc]
      rw [List.takeWhile_append_of_pos hall, List.dropWhile_append_of_pos hall, htake, hdrop]
      rw [if_neg (by simp [natChars_ne_nil])]
      rw [List.append_nil, digitsVal_natChars]
      congr 2
      omega

/-- Whitespace skipping does not consume a non-whitespace head. -/
theorem skipWs_cons {c : Char} {cs : List Char} (h : isWsChar c = false) :
    skipWs (c :: cs) = c :: cs := by
  simp [skipWs, List.dropWhile_cons, h]

/-- A literal keyword is consumed from the front of the text it heads. -/
theorem expectLit_append (lit rest : List Char) :
    expectLit lit (lit ++ rest) = some rest := by
  unfold expectLit
  rw [if_pos]
  · rw [List.drop_left]
  · exact List.isPrefixOf_iff_prefix.mpr (List.prefix_append lit rest)

/-- The string-body reader undoes the escaping of the serializer. -/
theorem parseStrBody_escBody (cs : List Char) (rest : List Char) :
    parseStrBody (escBody cs ++ '"' :: rest) = some (cs, rest) := by
  induction cs with
  | nil =>
    show parseStrBody ('"' :: rest) = some ([], rest)
    unfold parseStrBody
    simp
  | cons c cs ih =>
    show parseStrBody ((escChar c ++ escBody cs) ++ '"' :: rest) = some (c :: cs, rest)
    rw [List.append_assoc]
    unfold escChar
    by_cases h1 : c = '"'
    · subst h1
      rw [if_pos rfl]
      simp [parseStrBody, unescChar, ih]
    · rw [if_neg h1]
      by_cases h2 : c = '\\'
      · subst h2
        rw [if_pos rfl]
        simp [parseStrBody, unescChar, ih]
      · rw [if_neg h2]
        by_cases h3 : c = '\n'
        · subst h3
          rw [if_pos rfl]
          simp [parseStrBody, unescChar, ih]
        · rw [if_neg h3]
          by_cases h4 : c = '\t'
          · subst h4
            rw [if_pos rfl]
            simp [parseStrBody, unescChar, ih]
          · rw [if_neg h4]
            by_cases h5 : c = '\r'
            · subst h5
              rw [if_pos rfl]
              simp [parseStrBody, unescChar, ih]
            · rw [if_neg h5]
              show parseStrBody (c :: (escBody cs ++ '"' :: rest)) = some (c :: cs, rest)
              unfold parseStrBody
              rw [if_neg h1, if_neg h2]
              simp [ih]

/-- The serialized text of any value starts with a character that is not
whitespace and not a closing token, so the value reader dispatches on it. -/
theorem stringify_head (v : JVal) :
    ∃ c cs2, jsonStringify v = c :: cs2 ∧ isWsChar c = false ∧
      c ≠ ']' ∧ c ≠ '}' ∧ c ≠ ',' ∧ c ≠ ':' := by
  cases v with
  | jnull => exact ⟨'n', ['u', 'l', 'l'], by simp [jsonStringify], by decide, by decide, by decide, by decide, by decide⟩
  | undef => exact ⟨'n', ['u', 'l', 'l'], by simp [jsonStringify], by decide, by decide, by decide, by decide, by decide⟩
  | jbool b =>
    cases b with
    | true => exact ⟨'t', ['r', 'u', 'e'], by simp [jsonStringify], by decide, by decide, by decide, by decide, by decide⟩
    | false => exact ⟨'f', ['a', 'l', 's', 'e'], by simp [jsonStringify], by decide, by decide, by decide, by decide, by decide⟩
  | jnum n =>
    rcases lt_or_ge n 0 with h | h
    · refine ⟨'-', natChars n.natAbs, ?_, by decide, by decide, by decide, by decide, by decide⟩
      rw [show jsonStringify (jnum n) = (intToString n).data by simp [jsonStringify]]
      rw [intToString_data, if_pos h]
    · obtain ⟨c, cs, hc⟩ := List.exists_cons_of_ne_nil (natChars_ne_nil n.natAbs)
      have hcd : c.isDigit = true := natChars_all_digits _ c (by rw [hc]; simp)
      have hb := digit_bounds hcd
      refine ⟨c, cs, ?_, digit_not_ws hcd, ?_, ?_, ?_, ?_⟩
      · rw [show jsonStringify (jnum n) = (intToString n).data by simp [jsonStringify]]
        rw [intToString_data, if_neg (by omega), hc]
      all_goals intro he; subst he; simp at hcd
  | jstr s =>
    exact ⟨'"', escBody s.data ++ ['"'], by simp [jsonStringify, quoteString], by decide,
      by decide, by decide, by decide, by decide⟩
  | jarr vs =>
    cases vs with
    | nil => exact ⟨'[', [']'], by simp [jsonStringify], by decide, by decide, by decide, by decide, by decide⟩
    | cons v vs => exact ⟨'[', jsonStringify v ++ emitArrTail vs, by simp [jsonStringify], by decide, by decide, by decide, by decide, by decide⟩
  | jobj kvs =>
    cases kvs with
    | nil => exact ⟨'{', ['}'], by simp [jsonStringify], by decide, by decide, by decide, by decide, by decide⟩
    | cons kv kvs => exact ⟨'{', emitMember kv ++ emitObjTail kvs, by simp [jsonStringify], by decide, by decide, by decide, by decide, by decide⟩

/-- Serialized values are nonempty. -/
theorem stringify_length_pos (v : JVal) : 1 ≤ (jsonStringify v).length := by
  obtain ⟨c, cs2, hc, -⟩ := stringify_head v
  rw [hc]
  simp

/-- Serialized array tails are nonempty. -/
theorem emitArrTail_length_pos (vs : List JVal) : 1 ≤ (emitArrTail vs).length := by
  cases vs <;> simp [emitArrTail]

/-- Serialized object tails are nonempty. -/
theorem emitObjTail_length_pos (kvs : List (String × JVal)) :
    1 ≤ (emitObjTail kvs).length := by
  cases kvs <;> simp [emitObjTail]

/-- Serialized members are nonempty. -/
theorem emitMember_length_pos (kv : String × JVal) : 1 ≤ (emitMember kv).length := by
  obtain ⟨k, v⟩ := kv
  simp [emitMember, quoteString]

/-- A serialized array tail followed by a valid continuation is itself a
valid continuation (it starts with a comma or a closing bracket). -/
theorem restOk_emitArrTail (vs : List JVal) (rest : List Char) :
    restOk (emitArrTail vs ++ rest) := by
  cases vs with
  | nil => simp [emitArrTail, restOk]
  | cons v vs => simp [emitArrTail, restOk]

/-- A serialized object tail followed by a valid continuation is itself a
valid continuation. -/
theorem restOk_emitObjTail (kvs : List (String × JVal)) (rest : List Char) :
    restOk (emitObjTail kvs ++ rest) := by
  cases kvs with
  | nil => simp [emitObjTail, restOk]
  | cons kv kvs => simp [emitObjTail, restOk]

/-- Skipping whitespace in front of a serialized value changes nothing. -/
theorem skipWs_stringify (v : JVal) (x : List Char) :
    skipWs (jsonStringify v ++ x) = jsonStringify v ++ x := by
  obtain ⟨c, cs2, hc, hws, -⟩ := stringify_head v
  rw [hc, List.cons_append, skipWs_cons hws]

/-- The recursive-descent reader undoes the serializer: parseV reads back
any undefined-free value, parseArrTail any serialized array tail,
parseMember any member and parseObjTail any object tail, given enough
fuel and a valid continuation. -/
theorem parse_emit_rt (fuel : Nat) :
    (∀ (v : JVal) (rest : List Char), noUndef v = true → restOk rest →
      (jsonStringify v).length ≤ fuel →
      parseV fuel (jsonStringify v ++ rest) = some (v, rest)) ∧
    (∀ (vs : List JVal) (rest : List Char), noUndefList vs = true → restOk rest →
      (emitArrTail vs).length ≤ fuel →
      parseArrTail fuel (emitArrTail vs ++ rest) = some (vs, rest)) ∧
    (∀ (kv : String × JVal) (rest : List Char), noUndef kv.2 = true → restOk rest →
      (emitMember kv).length ≤ fuel →
      parseMember fuel (emitMember kv ++ rest) = some (kv, rest)) ∧
    (∀ (kvs : List (String × JVal)) (rest : List Char), noUndefEntries kvs = true →
      restOk rest → (emitObjTail kvs).length ≤ fuel →
      parseObjTail fuel (emitObjTail kvs ++ rest) = some (kvs, rest)) := by
  induction fuel with
  | zero =>
    refine ⟨?_, ?_, ?_, ?_⟩
    · intro v rest _ _ hlen
      have := stringify_length_pos v
      omega
    · intro vs rest _ _ hlen
      have := emitArrTail_length_pos vs
      omega
    · intro kv rest _ _ hlen
      have := emitMember_length_pos kv
      omega
    · intro kvs rest _ _ hlen
      have := emitObjTail_length_pos kvs
      omega
  | succ fuel ih =>
    obtain ⟨ihV, ihA, ihM, ihO⟩ := ih
    have mainV : ∀ (v : JVal) (rest : List Char), noUndef v = true → restOk rest →
        (jsonStringify v).length ≤ fuel + 1 →
        parseV (fuel + 1) (jsonStringify v ++ rest) = some (v, rest) := by
      intro v rest hnu hrest hlen
      cases v with
      | undef => simp [noUndef] at hnu
      | jnull =>
        show parseV (fuel + 1) ('n' :: (['u', 'l', 'l'] ++ rest)) = some (jnull, rest)
        unfold parseV
        rw [skipWs_cons (by decide)]
        simp [expectLit, List.isPrefixOf]
      | jbool b =>
        cases b with
        | true =>
          show parseV (fuel + 1) ('t' :: (['r', 'u', 'e'] ++ rest)) = some (jbool true, rest)
          unfold parseV
          rw [skipWs_cons (by decide)]
          simp [expectLit, List.isPrefixOf]
        | false =>
          show parseV (fuel + 1) ('f' :: (['a', 'l', 's', 'e'] ++ rest)) =
            some (jbool false, rest)
          unfold parseV
          rw [skipWs_cons (by decide)]
          simp [expectLit, List.isPrefixOf]
      | jnum n =>
        have hpn := parseNum_intToString n hrest
        rcases lt_or_ge n 0 with hn | hn
        · have hdata : (intToString n).data = '-' :: natChars n.natAbs := by
            rw [intToString_data, if_pos hn]
          rw [hdata] at hpn
          show parseV (fuel + 1) ((intToString n).data ++ rest) = some (jnum n, rest)
          rw [hdata, List.cons_append]
          rw [List.cons_append] at hpn
          unfold parseV
          rw [skipWs_cons (by decide)]
          simp [hpn]
        · obtain ⟨c, cs, hc⟩ := List.exists_cons_of_ne_nil (natChars_ne_nil n.natAbs)
          have hcd : c.isDigit = true := natChars_all_digits _ c (by rw [hc]; simp)
          have hdata : (intToString n).data = c :: cs := by
            rw [intToString_data, if_neg (by omega), hc]
          rw [hdata] at hpn
          show parseV (fuel + 1) ((intToString n).data ++ rest) = some (jnum n, rest)
          rw [hdata, List.cons_append]
          rw [List.cons_append] at hpn
          unfold parseV
          rw [skipWs_cons (digit_not_ws hcd)]
          have hne1 : c ≠ 'n' := by intro he; subst he; simp at hcd
          have hne2 : c ≠ 't' := by intro he; subst he; simp at hcd
          have hne3 : c ≠ 'f' := by intro he; subst he; simp at hcd
          have hne4 : c ≠ '"' := by intro he; subst he; simp at hcd
          have hne5 : c ≠ '[' := by intro he; subst he; simp at hcd
          have hne6 : c ≠ '{' := by intro he; subst he; simp at hcd
          simp [hne1, hne2, hne3, hne4, hne5, hne6, hcd, hpn]
      | jstr s =>
        show parseV (fuel + 1) (quoteString s ++ rest) = some (jstr s, rest)
        rw [show quoteString s ++ rest = '"' :: (escBody s.data ++ ('"' :: rest)) by
          simp [quoteString]]
        unfold parseV
        rw [skipWs_cons (by decide)]
        simp [parseStrBody_escBody]
      | jarr vs =>
        cases vs with
        | nil =>
          show parseV (fuel + 1) ('[' :: ']' :: rest) = some (jarr [], rest)
          unfold parseV
          rw [skipWs_cons (by decide)]
          simp [skipWs, List.dropWhile_cons, isWsChar]
        | cons v vs =>
          have hnu2 : noUndef v = true ∧ noUndefList vs = true := by
            simpa [noUndef, noUndefList] using hnu
          have hlen2 : (jsonStringify v).length ≤ fuel ∧
              (emitArrTail vs).length ≤ fuel := by
            have h1 := stringify_length_pos v
            have h2 := emitArrTail_length_pos vs
            have he : (jsonStringify (jarr (v :: vs))).length =
                1 + (jsonStringify v).length + (emitArrTail vs).length := by
              rw [show jsonStringify (jarr (v :: vs)) =
                '[' :: (jsonStringify v ++ emitArrTail vs) by simp [jsonStringify]]
              simp
              omega
            omega
          have hV := ihV v (emitArrTail vs ++ rest) hnu2.1
            (restOk_emitArrTail vs rest) hlen2.1
          have hA := ihA vs rest hnu2.2 hrest hlen2.2
          obtain ⟨c, cs2, hc, hws, hnb, -, -, -⟩ := stringify_head v
          show parseV (fuel + 1)
              (('[' :: (jsonStringify v ++ emitArrTail vs)) ++ rest) =
            some (jarr (v :: vs), rest)
          rw [List.cons_append, List.append_assoc]
          have hred : parseV (fuel + 1)
              ('[' :: (jsonStringify v ++ (emitArrTail vs ++ rest))) =
            (match skipWs (jsonStringify v ++ (emitArrTail vs ++ rest)) with
              | ']' :: rest2 => some (jarr [], rest2)
              | _ =>
                match parseV fuel (jsonStringify v ++ (emitArrTail vs ++ rest)) with
                | some (v1, r1) =>
                  (parseArrTail fuel r1).map (fun p => (jarr (v1 :: p.1), p.2))
                | none => none) := by
            conv_lhs => unfold parseV
            rw [skipWs_cons (by decide)]
            exact rfl
          rw [hred, skipWs_stringify v]
          rw [hc, List.cons_append] at hV ⊢
          split
          · rename_i heq
            exact absurd (List.cons.inj heq).1.symm (Ne.symm hnb)
          · simp [hV, hA]
      | jobj kvs =>
        cases kvs with
        | nil =>
          show parseV (fuel + 1) ('{' :: '}' :: rest) = some (jobj [], rest)
          unfold parseV
          rw [skipWs_cons (by decide)]
          simp [skipWs, List.dropWhile_cons, isWsChar]
        | cons kv kvs =>
          obtain ⟨k0, v0⟩ := kv
          have hnu2 : noUndef v0 = true ∧ noUndefEntries kvs = true := by
            simpa [noUndef, noUndefEntries] using hnu
          have hlen2 : (jsonStringify v0).length ≤ fuel ∧
              (emitObjTail kvs).length ≤ fuel := by
            have h2 := emitObjTail_length_pos kvs
            have he : (jsonStringify (jobj ((k0, v0) :: kvs))).length =
                1 + (emitMember (k0, v0)).length + (emitObjTail kvs).length := by
              rw [show jsonStringify (jobj ((k0, v0) :: kvs)) =
                '{' :: (emitMember (k0, v0) ++ emitObjTail kvs) by simp [jsonStringify]]
              simp
              omega
            have hm : (emitMember (k0, v0)).length =
                (escBody k0.data).length + 2 + 1 + (jsonStringify v0).length := by
              simp [emitMember, quoteString]
              omega
            omega
          have hmlen : (emitMember (k0, v0)).length ≤ fuel := by
            have h2 := emitObjTail_length_pos kvs
            have he : (jsonStringify (jobj ((k0, v0) :: kvs))).length =
                1 + (emitMember (k0, v0)).length + (emitObjTail kvs).length := by
              rw [show jsonStringify (jobj ((k0, v0) :: kvs)) =
                '{' :: (emitMember (k0, v0) ++ emitObjTail kvs) by simp [jsonStringify]]
              simp
              omega
            omega
          have hM := ihM (k0, v0) (emitObjTail kvs ++ rest) hnu2.1
            (restOk_emitObjTail kvs rest) hmlen
          have hO := ihO kvs rest hnu2.2 hrest hlen2.2
          show parseV (fuel + 1)
              (('{' :: (emitMember (k0, v0) ++ emitObjTail kvs)) ++ rest) =
            some (jobj ((k0, v0) :: kvs), rest)
          rw [List.cons_append, List.append_assoc]
          have hred : parseV (fuel + 1)
              ('{' :: (emitMember (k0, v0) ++ (emitObjTail kvs ++ rest))) =
            (match skipWs (emitMember (k0, v0) ++ (emitObjTail kvs ++ rest)) with
              | '}' :: rest2 => some (jobj [], rest2)
              | _ =>
                match parseMember fuel (emitMember (k0, v0) ++ (emitObjTail kvs ++ rest)) with
                | some (kv1, r1) =>
                  (parseObjTail fuel r1).map (fun p => (jobj (kv1 :: p.1), p.2))
                | none => none) := by
            conv_lhs => unfold parseV
            rw [skipWs_cons (by decide)]
            exact rfl
          rw [hred]
          rw [show emitMember (k0, v0) ++ (emitObjTail kvs ++ rest) =
              '"' :: (escBody k0.data ++
                ('"' :: (':' :: (jsonStringify v0 ++ (emitObjTail kvs ++ rest))))) by
            simp [emitMember, quoteString]] at hM ⊢
          rw [skipWs_cons (by decide)]
          split
          · rename_i heq
            exact absurd (List.cons.inj heq).1 (by decide)
          · simp [hM, hO]
    refine ⟨mainV, ?_, ?_, ?_⟩
    · intro vs rest hnu hrest hlen
      cases vs with
      | nil =>
        show parseArrTail (fuel + 1) (']' :: rest) = some ([], rest)
        unfold parseArrTail
        rw [skipWs_cons (by decide)]
        exact rfl
      | cons v vs =>
        have hnu2 : noUndef v = true ∧ noUndefList vs = true := by
          simpa [noUndefList] using hnu
        have hlen2 : (jsonStringify v).length ≤ fuel ∧
            (emitArrTail vs).length ≤ fuel := by
          have h1 := stringify_length_pos v
          have h2 := emitArrTail_length_pos vs
          have he : (emitArrTail (v :: vs)).length =
              1 + (jsonStringify v).length + (emitArrTail vs).length := by
            rw [show emitArrTail (v :: vs) =
              ',' :: (jsonStringify v ++ emitArrTail vs) by simp [emitArrTail]]
            simp
            omega
          omega
        have hV := ihV v (emitArrTail vs ++ rest) hnu2.1
          (restOk_emitArrTail vs rest) hlen2.1
        have hA := ihA vs rest hnu2.2 hrest hlen2.2
        show parseArrTail (fuel + 1)
            ((',' :: (jsonStringify v ++ emitArrTail vs)) ++ rest) = some (v :: vs, rest)
        rw [List.cons_append, List.append_assoc]
        unfold parseArrTail
        rw [skipWs_cons (by decide)]
        simp [hV, hA]
    · intro kv rest hnu hrest hlen
      obtain ⟨k0, v0⟩ := kv
      have hlv : (jsonStringify v0).length ≤ fuel := by
        have hq : (emitMember (k0, v0)).length =
            (escBody k0.data).length + 2 + 1 + (jsonStringify v0).length := by
          simp [emitMember, quoteString]
          omega
        omega
      have hV := mainV v0 rest hnu hrest (by omega)
      show parseMember (fuel + 1) (emitMember (k0, v0) ++ rest) = some ((k0, v0), rest)
      rw [show emitMember (k0, v0) ++ rest =
          '"' :: (escBody k0.data ++ ('"' :: (':' :: (jsonStringify v0 ++ rest)))) by
        simp [emitMember, quoteString]]
      unfold parseMember
      rw [skipWs_cons (by decide)]
      have hV2 := ihV v0 rest hnu hrest hlv
      simp [parseStrBody_escBody, skipWs, List.dropWhile_cons, isWsChar, hV2]
    · intro kvs rest hnu hrest hlen
      cases kvs with
      | nil =>
        show parseObjTail (fuel + 1) ('}' :: rest) = some ([], rest)
        unfold parseObjTail
        rw [skipWs_cons (by decide)]
        exact rfl
      | cons kv kvs =>
        have hnu2 : noUndef kv.2 = true ∧ noUndefEntries kvs = true := by
          obtain ⟨k0, v0⟩ := kv
          simpa [noUndefEntries] using hnu
        have hlen2 : (emitMember kv).length ≤ fuel ∧ (emitObjTail kvs).length ≤ fuel := by
          have h1 := emitMember_length_pos kv
          have h2 := emitObjTail_length_pos kvs
          have he : (emitObjTail (kv :: kvs)).length =
              1 + (emitMember kv).length + (emitObjTail kvs).length := by
            rw [show emitObjTail (kv :: kvs) =
              ',' :: (emitMember kv ++ emitObjTail kvs) by simp [emitObjTail]]
            simp
            omega
          omega
        have hM := ihM kv (emitObjTail kvs ++ rest) hnu2.1
          (restOk_emitObjTail kvs rest) hlen2.1
        have hO := ihO kvs rest hnu2.2 hrest hlen2.2
        show parseObjTail (fuel + 1)
            ((',' :: (emitMember kv ++ emitObjTail kvs)) ++ rest) = some (kv :: kvs, rest)
        rw [List.cons_append, List.append_assoc]
        unfold parseObjTail
        rw [skipWs_cons (by decide)]
        simp [hM, hO]

/-- Serialized array tails are nonempty lists of characters. -/
theorem emitArrTail_ne_nil (vs : List JVal) : emitArrTail vs ≠ [] := by
  have h := emitArrTail_length_pos vs
  intro he
  rw [he] at h
  simp at h

/-- Serialized object tails are nonempty lists of characters. -/
theorem emitObjTail_ne_nil (kvs : List (String × JVal)) : emitObjTail kvs ≠ [] := by
  have h := emitObjTail_length_pos kvs
  intro he
  rw [he] at h
  simp at h

/-- The closing bracket ends every serialized array tail. -/
theorem emitArrTail_last (vs : List JVal) :
    (emitArrTail vs).getLast? = some ']' := by
  induction vs with
  | nil => rfl
  | cons v vs ih =>
    rw [show emitArrTail (v :: vs) = (',' :: jsonStringify v) ++ emitArrTail vs by
      simp [emitArrTail]]
    rw [List.getLast?_append_of_ne_nil _ (emitArrTail_ne_nil vs)]
    exact ih

/-- The closing brace ends every serialized object tail. -/
theorem emitObjTail_last (kvs : List (String × JVal)) :
    (emitObjTail kvs).getLast? = some '}' := by
  induction kvs with
  | nil => rfl
  | cons kv kvs ih =>
    rw [show emitObjTail (kv :: kvs) = (',' :: emitMember kv) ++ emitObjTail kvs by
      simp [emitObjTail]]
    rw [List.getLast?_append_of_ne_nil _ (emitObjTail_ne_nil kvs)]
    exact ih

/-- A serialized array ends with the closing bracket. -/
theorem stringify_jarr_last (vs : List JVal) :
    (jsonStringify (jarr vs)).getLast? = some ']' := by
  cases vs with
  | nil =>
    rw [show jsonStringify (jarr []) = ['[', ']'] by simp [jsonStringify]]
    rfl
  | cons v vs =>
    rw [show jsonStringify (jarr (v :: vs)) =
      ('[' :: jsonStringify v) ++ emitArrTail vs by simp [jsonStringify]]
    rw [List.getLast?_append_of_ne_nil _ (emitArrTail_ne_nil vs)]
    exact emitArrTail_last vs

/-- A serialized object ends with the closing brace. -/
theorem stringify_jobj_last (kvs : List (String × JVal)) :
    (jsonStringify (jobj kvs)).getLast? = some '}' := by
  cases kvs with
  | nil =>
    rw [show jsonStringify (jobj []) = ['{', '}'] by simp [jsonStringify]]
    rfl
  | cons kv kvs =>
    rw [show jsonStringify (jobj (kv :: kvs)) =
      ('{' :: emitMember kv) ++ emitObjTail kvs by simp [jsonStringify]]
    rw [List.getLast?_append_of_ne_nil _ (emitObjTail_ne_nil kvs)]
    exact emitObjTail_last kvs

/-- A serialized array starts with the opening bracket. -/
theorem stringify_jarr_head (vs : List JVal) :
    ∃ t, jsonStringify (jarr vs) = '[' :: t := by
  cases vs with
  | nil => exact ⟨[']'], by simp [jsonStringify]⟩
  | cons v vs => exact ⟨jsonStringify v ++ emitArrTail vs, by simp [jsonStringify]⟩

/-- A serialized object starts with the opening brace. -/
theorem stringify_jobj_head (kvs : List (String × JVal)) :
    ∃ t, jsonStringify (jobj kvs) = '{' :: t := by
  cases kvs with
  | nil => exact ⟨['}'], by simp [jsonStringify]⟩
  | cons kv kvs => exact ⟨emitMember kv ++ emitObjTail kvs, by simp [jsonStringify]⟩

/-- Trimming leaves a serialized array unchanged. -/
theorem jsTrim_stringify_arr (vs : List JVal) :
    jsTrim ⟨jsonStringify (jarr vs)⟩ = ⟨jsonStringify (jarr vs)⟩ := by
  obtain ⟨t, ht⟩ := stringify_jarr_head vs
  have hlast := stringify_jarr_last vs
  rw [ht] at hlast
  apply jsTrim_fix
  · exact ht
  · decide
  · exact hlast
  · decide

/-- Trimming leaves a serialized object unchanged. -/
theorem jsTrim_stringify_obj (kvs : List (String × JVal)) :
    jsTrim ⟨jsonStringify (jobj kvs)⟩ = ⟨jsonStringify (jobj kvs)⟩ := by
  obtain ⟨t, ht⟩ := stringify_jobj_head kvs
  have hlast := stringify_jobj_last kvs
  rw [ht] at hlast
  apply jsTrim_fix
  · exact ht
  · decide
  · exact hlast
  · decide

/-- A serialized array passes the bracket test of parseValue. -/
theorem jsonDelimitedB_stringify_arr (vs : List JVal) :
    jsonDelimitedB ⟨jsonStringify (jarr vs)⟩ = true := by
  obtain ⟨t, ht⟩ := stringify_jarr_head vs
  have hlast := stringify_jarr_last vs
  rw [ht] at hlast
  unfold jsonDelimitedB
  rw [show (⟨jsonStringify (jarr vs)⟩ : String).data = '[' :: t from ht]
  rw [show ('[' :: t).head? = some '[' from rfl, hlast]
  rfl

/-- A serialized object passes the brace test of parseValue. -/
theorem jsonDelimitedB_stringify_obj (kvs : List (String × JVal)) :
    jsonDelimitedB ⟨jsonStringify (jobj kvs)⟩ = true := by
  obtain ⟨t, ht⟩ := stringify_jobj_head kvs
  have hlast := stringify_jobj_last kvs
  rw [ht] at hlast
  unfold jsonDelimitedB
  rw [show (⟨jsonStringify (jobj kvs)⟩ : String).data = '{' :: t from ht]
  rw [show ('{' :: t).head? = some '{' from rfl, hlast]
  rfl

/-- JSON.parse undoes JSON.stringify on any undefined-free value. -/
theorem jsonParse_stringify (v : JVal) (h : noUndef v = true) :
    jsonParseOpt ⟨jsonStringify v⟩ = some v := by
  have hp := (parse_emit_rt ((jsonStringify v).length + 1)).1 v [] h trivial (by omega)
  rw [List.append_nil] at hp
  unfold jsonParseOpt
  rw [show (⟨jsonStringify v⟩ : String).length = (jsonStringify v).length from rfl]
  rw [show (⟨jsonStringify v⟩ : String).data = jsonStringify v from rfl]
  rw [hp]
  rfl

/-- Number() rejects a trimmed text whose first character is an opening
bracket or brace. -/
theorem jsNumberOpt_head_bracket {s : String} {c : Char} {cs : List Char}
    (hd : (jsTrim s).data = c :: cs) (hc : c = '[' ∨ c = '{') :
    jsNumberOpt s = none := by
  unfold jsNumberOpt
  rw [hd]
  have hdig : c.isDigit = false := by rcases hc with rfl | rfl <;> decide
  split
  · rename_i heq
    simp at heq
  · rename_i heq
    obtain ⟨hbad, -⟩ := List.cons.inj heq
    rcases hc with rfl | rfl <;> exact absurd hbad (by decide)
  · rename_i heq
    obtain ⟨hbad, -⟩ := List.cons.inj heq
    rcases hc with rfl | rfl <;> exact absurd hbad (by decide)
  · rw [if_neg]
    rw [List.all_cons]
    simp [hdig]

/-- The first character of an integer's decimal text: a minus sign or a
digit, in either case fixed by lower-casing and no keyword initial. -/
theorem intToString_head (n : Int) :
    ∃ c cs, (intToString n).data = c :: cs ∧ lowerChar c = c ∧
      c ≠ 't' ∧ c ≠ 'f' := by
  rcases lt_or_ge n 0 with h | h
  · refine ⟨'-', natChars n.natAbs, ?_, ?_, by decide, by decide⟩
    · rw [intToString_data, if_pos h]
    · exact lowerChar_fix (by left; decide)
  · obtain ⟨c, cs, hc⟩ := List.exists_cons_of_ne_nil (natChars_ne_nil n.natAbs)
    have hcd : c.isDigit = true := natChars_all_digits _ c (by rw [hc]; simp)
    have hb := digit_bounds hcd
    refine ⟨c, cs, ?_, lowerChar_fix (by omega), ?_, ?_⟩
    · rw [intToString_data, if_neg (by omega), hc]
    all_goals intro he; subst he; simp at hcd

/-- One good cell value parses back from its saved text after the
trimming done by the loader. -/
theorem cell_round_trip (v : JVal) (h : goodCellVal v = true) :
    parseValue (jsTrim (castCell v)) = v := by
  cases v with
  | undef => simp [goodCellVal] at h
  | jbool b => simp [goodCellVal] at h
  | jnull =>
    rw [show castCell jnull = "" from rfl]
    rw [show jsTrim "" = "" from rfl]
    rfl
  | jnum n =>
    rw [show castCell (jnum n) = intToString n from rfl]
    have htrim : jsTrim (intToString n) = intToString n :=
      jsTrim_fix_of_all (intToString_ne_nil n) (intToString_no_ws n)
    rw [htrim]
    obtain ⟨c, cs, hc, hfix, ht, hf⟩ := intToString_head n
    have hne : intToString n ≠ "" := by
      intro he
      rw [he] at hc
      simp at hc
    have hkw := asciiLower_ne_keywords hc hfix ht hf
    unfold parseValue
    rw [if_neg hne, if_neg hkw.1, if_neg hkw.2, jsNumberOpt_intToString]
    have hne2 : jsTrim (intToString n) ≠ "" := by rw [htrim]; exact hne
    simp [hne2]
  | jstr s =>
    have hps : plainString s = true := h
    rw [plainString, Bool.and_eq_true, Bool.and_eq_true, Bool.and_eq_true,
      Bool.and_eq_true, Bool.and_eq_true] at hps
    obtain ⟨⟨⟨⟨⟨htrim, hne⟩, hkt⟩, hkf⟩, hnum⟩, hjson⟩ := hps
    have htrim2 : jsTrim s = s := by simpa using htrim
    have hne2 : s ≠ "" := by simpa using hne
    have hkt2 : asciiLower s ≠ "true" := by simpa using hkt
    have hkf2 : asciiLower s ≠ "false" := by simpa using hkf
    have hnum2 : jsNumberOpt s = none := Option.isNone_iff_eq_none.mp hnum
    rw [show castCell (jstr s) = s from rfl, htrim2]
    unfold parseValue
    rw [if_neg hne2, if_neg hkt2, if_neg hkf2, hnum2]
    show parseValueJson s = jstr s
    unfold parseValueJson
    rcases Bool.or_eq_true _ _ |>.mp hjson with hdel | hpn
    · rw [if_neg (by simp at hdel; simp [hdel])]
    · rw [Option.isNone_iff_eq_none.mp hpn]
      split <;> rfl
  | jarr vs =>
    have hnu : noUndef (jarr vs) = true := h
    rw [show castCell (jarr vs) = ⟨jsonStringify (jarr vs)⟩ from rfl]
    rw [jsTrim_stringify_arr]
    obtain ⟨t, ht⟩ := stringify_jarr_head vs
    have hne : (⟨jsonStringify (jarr vs)⟩ : String) ≠ "" := by
      intro he
      have : (⟨jsonStringify (jarr vs)⟩ : String).data = [] := by rw [he]
      rw [ht] at this
      simp at this
    have hkw := asciiLower_ne_keywords
      (show (⟨jsonStringify (jarr vs)⟩ : String).data = '[' :: t from ht)
      (lowerChar_fix (by right; decide)) (by decide) (by decide)
    have hnum : jsNumberOpt ⟨jsonStringify (jarr vs)⟩ = none := by
      apply jsNumberOpt_head_bracket
      · rw [jsTrim_stringify_arr]
        exact ht
      · left; rfl
    unfold parseValue
    rw [if_neg hne, if_neg hkw.1, if_neg hkw.2, hnum]
    unfold parseValueJson
    rw [if_pos (jsonDelimitedB_stringify_arr vs), jsonParse_stringify _ hnu]
  | jobj kvs =>
    have hnu : noUndef (jobj kvs) = true := h
    rw [show castCell (jobj kvs) = ⟨jsonStringify (jobj kvs)⟩ from rfl]
    rw [jsTrim_stringify_obj]
    obtain ⟨t, ht⟩ := stringify_jobj_head kvs
    have hne : (⟨jsonStringify (jobj kvs)⟩ : String) ≠ "" := by
      intro he
      have : (⟨jsonStringify (jobj kvs)⟩ : String).data = [] := by rw [he]
      rw [ht] at this
      simp at this
    have hkw := asciiLower_ne_keywords
      (show (⟨jsonStringify (jobj kvs)⟩ : String).data = '{' :: t from ht)
      (lowerChar_fix (by right; decide)) (by decide) (by decide)
    have hnum : jsNumberOpt ⟨jsonStringify (jobj kvs)⟩ = none := by
      apply jsNumberOpt_head_bracket
      · rw [jsTrim_stringify_obj]
        exact ht
      · right; rfl
    unfold parseValue
    rw [if_neg hne, if_neg hkw.1, if_neg hkw.2, hnum]
    unfold parseValueJson
    rw [if_pos (jsonDelimitedB_stringify_obj kvs), jsonParse_stringify _ hnu]

/-- Reading the key just set at the front of an object. -/
theorem jsGet_cons_self (k : String) (x : JVal) (fields : List (String × JVal)) :
    jsGet ((k, x) :: fields) k = x := by
  simp [jsGet]

/-- Reading another key skips the front entry. -/
theorem jsGet_cons_ne (k k' : String) (x : JVal) (fields : List (String × JVal))
    (h : k' ≠ k) : jsGet ((k, x) :: fields) k' = jsGet fields k' := by
  simp only [jsGet, List.find?_cons]
  rw [show decide (k = k') = false by simp [Ne.symm h]]

/-- Object.assign onto a target none of whose keys occurs in the
duplicate-free source appends the source entries. -/
theorem jsAssign_fresh (src : List (String × JVal)) :
    ∀ target : List (String × JVal),
    (∀ kv ∈ src, ∀ kv2 ∈ target, kv2.1 ≠ kv.1) →
    (src.map Prod.fst).Nodup →
    jsAssign target src = target ++ src := by
  induction src with
  | nil =>
    intro target _ _
    simp [jsAssign]
  | cons kv src ih =>
    intro target hfresh hnd
    rw [show jsAssign target (kv :: src) =
      jsAssign (jsSet target kv.1 kv.2) src from rfl]
    have hset : jsSet target kv.1 kv.2 = target ++ [kv] := by
      unfold jsSet
      rw [if_neg (by
        intro hany
        rw [List.any_eq_true] at hany
        obtain ⟨kv2, hkv2, heq⟩ := hany
        exact hfresh kv (by simp) kv2 hkv2 (by simpa using heq))]
    rw [hset]
    rw [List.map_cons, List.nodup_cons] at hnd
    rw [ih (target ++ [kv]) ?fresh hnd.2]
    · simp
    case fresh =>
      intro kv' hkv' kv2 hkv2
      rcases List.mem_append.mp hkv2 with h2 | h2
      · exact hfresh kv' (by simp [hkv']) kv2 h2
      · rw [List.mem_singleton.mp h2]
        intro he
        exact hnd.1 (he ▸ List.mem_map_of_mem Prod.fst hkv')

/-- Reading every key of a duplicate-free object back in order yields its
values in order. -/
theorem map_jsGet_keys (fields : List (String × JVal))
    (hnd : (fields.map Prod.fst).Nodup) :
    (fields.map Prod.fst).map (fun c => jsGet fields c) = fields.map Prod.snd := by
  induction fields with
  | nil => rfl
  | cons kv fields ih =>
    obtain ⟨k, v⟩ := kv
    rw [List.map_cons, List.nodup_cons] at hnd
    rw [List.map_cons, List.map_cons, List.map_cons]
    rw [jsGet_cons_self]
    congr 1
    rw [← ih hnd.2]
    apply List.map_congr_left
    intro c hc
    exact jsGet_cons_ne k c v fields (fun he => hnd.1 (he ▸ hc))

/-- Loading one saved row of a well-formed record reproduces its id and
fields and leaves the fresh-id counter unchanged. -/
theorem loadRow_saved (cols : List String) (r : RecordA) (n : Nat)
    (hnd : cols.Nodup) (hcols : ∀ c ∈ cols, asciiLower c ≠ "id")
    (hwf : recordWF cols r = true) :
    loadRow ("id" :: cols)
      ((("id" :: cols).map (fun c =>
        castCell (jsGet (jsAssign [("id", jstr r.id)] r.fields) c))).map jsTrim) n =
    (mkRecord r.id r.fields, n) := by
  rw [recordWF, Bool.and_eq_true, Bool.and_eq_true, Bool.and_eq_true] at hwf
  obtain ⟨⟨⟨hid, htrimid⟩, hkeys⟩, hgood⟩ := hwf
  have hid2 : r.id ≠ "" := by simpa using hid
  have htrimid2 : jsTrim r.id = r.id := by simpa using htrimid
  have hkeys2 : r.fields.map Prod.fst = cols := by simpa using hkeys
  have hgood2 : ∀ kv ∈ r.fields, goodCellVal kv.2 = true := by
    rw [List.all_eq_true] at hgood
    exact hgood
  have hfresh : ∀ kv ∈ r.fields, kv.1 ≠ "id" := by
    intro kv hkv he
    have hmem : kv.1 ∈ cols := hkeys2 ▸ List.mem_map_of_mem Prod.fst hkv
    exact hcols kv.1 hmem (by rw [he]; rfl)
  have hknd : (r.fields.map Prod.fst).Nodup := by rw [hkeys2]; exact hnd
  have hassign : jsAssign [("id", jstr r.id)] r.fields =
      ("id", jstr r.id) :: r.fields := by
    rw [jsAssign_fresh r.fields [("id", jstr r.id)] ?fr hknd]
    · rfl
    case fr =>
      intro kv hkv kv2 hkv2
      rw [List.mem_singleton.mp hkv2]
      exact Ne.symm (hfresh kv hkv)
  have hrow : ("id" :: cols).map (fun c =>
      castCell (jsGet (jsAssign [("id", jstr r.id)] r.fields) c)) =
      r.id :: (r.fields.map (fun kv => castCell kv.2)) := by
    rw [hassign, List.map_cons]
    congr 1
    rw [← hkeys2]
    have hstep : (r.fields.map Prod.fst).map (fun c =>
        castCell (jsGet (("id", jstr r.id) :: r.fields) c)) =
        (r.fields.map Prod.fst).map (fun c => castCell (jsGet r.fields c)) := by
      apply List.map_congr_left
      intro c hc
      rw [jsGet_cons_ne]
      intro he
      obtain ⟨kv, hkv, hkv1⟩ := List.mem_map.mp hc
      exact hfresh kv hkv (hkv1.symm ▸ he)
    rw [hstep]
    rw [show (fun c => castCell (jsGet r.fields c)) =
      (castCell ∘ fun c => jsGet r.fields c) from rfl]
    rw [← List.map_map, map_jsGet_keys r.fields hknd, List.map_map]
    rfl
  have hcells : (("id" :: cols).map (fun c =>
      castCell (jsGet (jsAssign [("id", jstr r.id)] r.fields) c))).map jsTrim =
      r.id :: (r.fields.map (fun kv => jsTrim (castCell kv.2))) := by
    rw [hrow, List.map_cons, htrimid2, List.map_map]
    rfl
  rw [hcells]
  have hzip : ("id" :: cols).zip
      (r.id :: (r.fields.map (fun kv => jsTrim (castCell kv.2)))) =
      ("id", r.id) :: r.fields.map (fun kv => (kv.1, jsTrim (castCell kv.2))) := by
    rw [show ("id" :: cols).zip
        (r.id :: (r.fields.map (fun kv => jsTrim (castCell kv.2)))) =
        ("id", r.id) :: cols.zip (r.fields.map (fun kv => jsTrim (castCell kv.2)))
        from rfl]
    rw [← hkeys2, List.zip_map']
  have hrowid : rowId (("id", r.id) ::
      r.fields.map (fun kv => (kv.1, jsTrim (castCell kv.2)))) n = (r.id, n) := by
    unfold rowId
    rw [show cellGet (("id", r.id) ::
        r.fields.map (fun kv => (kv.1, jsTrim (castCell kv.2)))) "id" = some r.id by
      simp [cellGet]]
    rw [show truthyCell (some r.id) = some r.id by simp [truthyCell, hid2]]
  have hfields : ((("id", r.id) ::
      r.fields.map (fun kv => (kv.1, jsTrim (castCell kv.2)))).filter
        (fun kv => decide (asciiLower kv.1 ≠ "id"))).map
        (fun kv => (kv.1, parseValue kv.2)) = r.fields := by
    rw [List.filter_cons]
    rw [show (decide (asciiLower ("id", r.id).1 ≠ "id")) = false by rfl]
    simp only [Bool.false_eq_true, if_false]
    rw [List.filter_eq_self.mpr]
    · rw [List.map_map]
      have : ∀ kv ∈ r.fields,
          ((fun kv => (kv.1, parseValue kv.2)) ∘
            (fun kv => (kv.1, jsTrim (castCell kv.2)))) kv = kv := by
        intro kv hkv
        show (kv.1, parseValue (jsTrim (castCell kv.2))) = kv
        rw [cell_round_trip kv.2 (hgood2 kv hkv)]
      rw [List.map_congr_left this]
      exact List.map_id r.fields
    · intro kv hkv
      obtain ⟨kv0, hkv0, hkv0e⟩ := List.mem_map.mp hkv
      rw [← hkv0e]
      have hmem : kv0.1 ∈ cols := hkeys2 ▸ List.mem_map_of_mem Prod.fst hkv0
      simp [hcols kv0.1 hmem]
  unfold loadRow
  rw [show ("id" :: cols).zip
      (r.id :: (r.fields.map (fun kv => jsTrim (castCell kv.2)))) =
      ("id", r.id) :: r.fields.map (fun kv => (kv.1, jsTrim (castCell kv.2)))
      from hzip]
  simp only [hrowid, hfields]

/-- Loading every saved row of a list of well-formed records reproduces
each record's id and fields in order, leaving the counter unchanged. -/
theorem loadRows_saved (cols : List String) (recs : List RecordA) (n : Nat)
    (hnd : cols.Nodup) (hcols : ∀ c ∈ cols, asciiLower c ≠ "id")
    (hwf : ∀ r ∈ recs, recordWF cols r = true) :
    loadRows ("id" :: cols)
      ((recs.map (fun r => ("id" :: cols).map (fun c =>
        castCell (jsGet (jsAssign [("id", jstr r.id)] r.fields) c)))).map
        (fun cells => cells.map jsTrim)) n =
    (recs.map (fun r => mkRecord r.id r.fields), n) := by
  induction recs generalizing n with
  | nil => rfl
  | cons r recs ih =>
    rw [List.map_cons, List.map_cons, List.map_cons]
    show loadRows ("id" :: cols)
      (((("id" :: cols).map (fun c =>
        castCell (jsGet (jsAssign [("id", jstr r.id)] r.fields) c))).map jsTrim) ::
        ((recs.map (fun r => ("id" :: cols).map (fun c =>
          castCell (jsGet (jsAssign [("id", jstr r.id)] r.fields) c)))).map
          (fun cells => cells.map jsTrim))) n = _
    unfold loadRows
    simp only [loadRow_saved cols r n hnd hcols (hwf r (by simp)),
      ih n (fun r2 h2 => hwf r2 (by simp [h2]))]
    rfl

/-- The record list produced by loading a file: empty for a file without
data rows, otherwise the row loop started at counter one. -/
theorem loadCsvTable_records (name : String) (file : CsvFile) (auto : Bool) :
    (loadCsvTable name file auto).records =
      (if file.rows.map (fun cells => cells.map jsTrim) = [] then []
       else (loadRows (file.header.map jsTrim)
         (file.rows.map (fun cells => cells.map jsTrim)) 1).1) := by
  unfold loadCsvTable
  by_cases h : file.rows.map (fun cells => cells.map jsTrim) = []
  · simp only [if_pos h]
  · simp only [if_neg h]

/-- C2 (amended): for the file backend with auto-save on, for every
well-formed table state (each stored value a number, null, an
undefined-free array or object, or a plain string that the load-time
inference leaves unchanged; duplicate-free trim-invariant columns;
nonempty trim-invariant ids), saving the table to its backing file and
reloading that file reproduces every record's id and every typed field
value exactly.  Booleans are excluded from the good values: the default
csv-stringify casts save true as "1" and false as "", which reload as
the number 1 and null respectively (see the counterexample). -/
theorem C2_round_trip_good_values (t : CsvTable) (auto2 : Bool)
    (hwf : tableWF t = true) (hauto : t.autoSave = true) :
    (loadCsvTable t.name (saveToCsv t).file auto2).records.map
        (fun r => (r.id, r.fields)) =
      t.records.map (fun r => (r.id, r.fields)) := by
  rw [tableWF, Bool.and_eq_true, Bool.and_eq_true] at hwf
  obtain ⟨⟨htrim, hnd⟩, hrecs⟩ := hwf
  have htrim2 : ∀ f ∈ t.fieldNames, jsTrim f = f := by
    rw [List.all_eq_true] at htrim
    intro f hf
    simpa using htrim f hf
  have hnd2 : (t.fieldNames.filter (fun f => asciiLower f ≠ "id")).Nodup :=
    of_decide_eq_true hnd
  have hrecs2 : ∀ r ∈ t.records,
      recordWF (t.fieldNames.filter (fun f => asciiLower f ≠ "id")) r = true := by
    rw [List.all_eq_true] at hrecs
    exact hrecs
  have hcols : ∀ c ∈ t.fieldNames.filter (fun f => asciiLower f ≠ "id"),
      asciiLower c ≠ "id" := by
    intro c hc
    have h2 := List.of_mem_filter hc
    simpa using h2
  have hsave : (saveToCsv t).file =
      { header := "id" :: t.fieldNames.filter (fun f => asciiLower f ≠ "id")
        rows := t.records.map (fun r =>
          ("id" :: t.fieldNames.filter (fun f => asciiLower f ≠ "id")).map
            (fun c => castCell (jsGet (jsAssign [("id", jstr r.id)] r.fields) c))) } := by
    unfold saveToCsv
    rw [if_neg (fun h => h hauto)]
  have hheader :
      ("id" :: t.fieldNames.filter (fun f => asciiLower f ≠ "id")).map jsTrim
      = "id" :: t.fieldNames.filter (fun f => asciiLower f ≠ "id") := by
    rw [List.map_cons]
    rw [show jsTrim "id" = "id" from rfl]
    congr 1
    have h1 : ∀ c ∈ t.fieldNames.filter (fun f => asciiLower f ≠ "id"),
        jsTrim c = id c := fun c hc => htrim2 c (List.mem_of_mem_filter hc)
    rw [List.map_congr_left h1, List.map_id]
  have hsrows : (saveToCsv t).file.rows = t.records.map (fun r =>
      ("id" :: t.fieldNames.filter (fun f => asciiLower f ≠ "id")).map
        (fun c => castCell (jsGet (jsAssign [("id", jstr r.id)] r.fields) c))) := by
    rw [hsave]
  have hshead : (saveToCsv t).file.header =
      "id" :: t.fieldNames.filter (fun f => asciiLower f ≠ "id") := by
    rw [hsave]
  rw [loadCsvTable_records, hsrows, hshead]
  by_cases hnil : t.records = []
  · rw [hnil]
    simp
  · rw [if_neg (by simp [hnil])]
    rw [hheader]
    rw [loadRows_saved (t.fieldNames.filter (fun f => asciiLower f ≠ "id"))
      t.records 1 hnd2 hcols hrecs2]
    rw [show ((t.records.map (fun r => mkRecord r.id r.fields), 1) :
      List RecordA × Nat).1 = t.records.map (fun r => mkRecord r.id r.fields) from rfl]
    rw [List.map_map]
    apply List.map_congr_left
    intro r hr
    rfl

/-- C2 counterexample: a boolean field value does not survive the
save-then-reload cycle of the file backend.  The single stored value is
the boolean true, and after one save-reload cycle the same field holds
the number 1, because the csv-stringify default casts write true as the
text "1". -/
theorem C2_counterexample :
    boolTable.autoSave = true ∧
    boolTable.records.map (fun r => jsGet r.fields "Flag") = [jbool true] ∧
    (loadCsvTable boolTable.name (saveToCsv boolTable).file true).records.map
      (fun r => jsGet r.fields "Flag") = [jnum 1] :=
  ⟨rfl, rfl, rfl⟩

/-- C2 witness: the amended round trip holds at the concrete mixed-type
table (plain strings, a positive and a negative number, a null loaded
from an empty cell). -/
theorem C2_witness :
    tableWF mixedTable = true ∧ mixedTable.autoSave = true ∧
    (loadCsvTable mixedTable.name (saveToCsv mixedTable).file true).records.map
        (fun r => (r.id, r.fields)) =
      mixedTable.records.map (fun r => (r.id, r.fields)) :=
  ⟨rfl, rfl, C2_round_trip_good_values mixedTable true rfl rfl⟩
